import Mathlib

/-!
Verification of the inkframe core: palette quantizer (`src/processing/quantize.js`),
Floyd-Steinberg dithering engine (`src/processing/dither.js`) and the selection
engine with its histories (`src/selection/picker.js`).  The JavaScript sources are
shallowly embedded: numbers that stay integral are `ℕ`/`ℤ`, floating-point
accumulators and `Math.random()` draws are `ℚ`, mutable buffers are functions
`ℕ → ℚ` updated pointwise, and the module-level mutable selection state is passed
explicitly.
-/

namespace Inkframe

/-- RGB triple with 8-bit channels, standing for the source's `[r, g, b]` arrays. -/
abbrev RGB := ℕ × ℕ × ℕ

/-- `ACEP_PALETTE` from `quantize.js`: the 6 ACeP colors, in source order
black, white, green, blue, red, yellow. -/
def ACEP_PALETTE : List RGB :=
  [(0, 0, 0), (255, 255, 255), (0, 255, 0), (0, 0, 255), (255, 0, 0), (255, 255, 0)]

/-- `colorDistanceSquared` from `quantize.js`: squared Euclidean distance between
two RGB colors (channel differences may be negative, hence `ℤ`). -/
def colorDistanceSquared (c1 c2 : ℤ × ℤ × ℤ) : ℤ :=
  (c1.1 - c2.1) * (c1.1 - c2.1) + (c1.2.1 - c2.2.1) * (c1.2.1 - c2.2.1) +
    (c1.2.2 - c2.2.2) * (c1.2.2 - c2.2.2)

/-- View an 8-bit RGB triple as an integer triple. -/
def rgbZ (p : RGB) : ℤ × ℤ × ℤ := ((p.1 : ℤ), (p.2.1 : ℤ), (p.2.2 : ℤ))

/-- Distance from the channels `(r, g, b)` to a palette entry, as computed inside
the loops of `findClosestColor` and `findClosestColorIndex`. -/
def distTo (r g b : ℕ) (p : RGB) : ℤ :=
  colorDistanceSquared ((r : ℤ), (g : ℤ), (b : ℤ)) (rgbZ p)

/-- `dist < minDist` where `minDist` starts out as `Infinity` (modelled `none`). -/
def distLt (d : ℤ) : Option ℤ → Bool
  | none => true
  | some m => decide (d < m)

/-- The `for (const paletteColor of ACEP_PALETTE)` loop of `findClosestColor`:
carries the running `minDist` and `closest` values. -/
def fccLoop (c : ℤ × ℤ × ℤ) : List RGB → Option ℤ → RGB → RGB
  | [], _, closest => closest
  | p :: rest, minDist, closest =>
    if distLt (colorDistanceSquared c (rgbZ p)) minDist then
      fccLoop c rest (some (colorDistanceSquared c (rgbZ p))) p
    else fccLoop c rest minDist closest

/-- `findClosestColor` from `quantize.js`: the palette color of minimum squared
Euclidean distance, scanning the palette in order with a strict `<` update
(so the first entry achieving the minimum wins). -/
def findClosestColor (r g b : ℕ) : RGB :=
  fccLoop ((r : ℤ), (g : ℤ), (b : ℤ)) ACEP_PALETTE none (ACEP_PALETTE.headD (0, 0, 0))

/-- The indexed `for (let i = 0; ...)` loop of `findClosestColorIndex`. -/
def fcciLoop (c : ℤ × ℤ × ℤ) : List RGB → ℕ → Option ℤ → ℕ → ℕ
  | [], _, _, best => best
  | p :: rest, i, minDist, best =>
    if distLt (colorDistanceSquared c (rgbZ p)) minDist then
      fcciLoop c rest (i + 1) (some (colorDistanceSquared c (rgbZ p))) i
    else fcciLoop c rest (i + 1) minDist best

/-- `findClosestColorIndex` from `quantize.js`: index of the closest palette color. -/
def findClosestColorIndex (r g b : ℕ) : ℕ :=
  fcciLoop ((r : ℤ), (g : ℤ), (b : ℤ)) ACEP_PALETTE 0 none 0

/-- Every palette entry is a fixed point of `findClosestColor`. -/
lemma fcc_palette_fixed : ∀ p ∈ ACEP_PALETTE, findClosestColor p.1 p.2.1 p.2.2 = p := by
  decide

/-- Distance of the `t`-th entry of a palette list to the color `c`. -/
def distAt (c : ℤ × ℤ × ℤ) (P : List RGB) (t : ℕ) : ℤ :=
  colorDistanceSquared c (rgbZ (P.getD t (0, 0, 0)))

/-- Loop invariant of `fcciLoop`: once `minDist` is a real value equal to the
distance of the running best index, the loop returns the first index of the whole
list achieving the minimum distance. -/
lemma fcciLoop_inv (c : ℤ × ℤ × ℤ) (P : List RGB) :
    ∀ (n i : ℕ) (mv : ℤ) (best : ℕ), n = P.length - i →
    mv = distAt c P best → (∀ t < i, mv ≤ distAt c P t) →
    (∀ t < best, mv < distAt c P t) → best < i → i ≤ P.length →
    fcciLoop c (P.drop i) i (some mv) best < P.length ∧
    (∀ t < P.length, distAt c P (fcciLoop c (P.drop i) i (some mv) best) ≤ distAt c P t) ∧
    (∀ t < fcciLoop c (P.drop i) i (some mv) best,
      distAt c P (fcciLoop c (P.drop i) i (some mv) best) < distAt c P t) := by
  intro n
  induction n with
  | zero =>
    intro i mv best hn hmv hle hlt hbi hiP
    have hi : i = P.length := by omega
    subst hi
    simp only [List.drop_length, fcciLoop]
    refine ⟨by omega, ?_, ?_⟩
    · intro t ht; rw [← hmv]; exact hle t ht
    · intro t ht; rw [← hmv]; exact hlt t ht
  | succ n ih =>
    intro i mv best hn hmv hle hlt hbi hiP
    have hi : i < P.length := by omega
    rw [List.drop_eq_getElem_cons hi]
    simp only [fcciLoop]
    have hget : P[i] = P.getD i (0, 0, 0) := by
      simp [List.getD_eq_getElem?_getD, List.getElem?_eq_getElem hi]
    by_cases hc : distLt (colorDistanceSquared c (rgbZ P[i])) (some mv) = true
    · rw [if_pos hc]
      have hd : colorDistanceSquared c (rgbZ P[i]) < mv := by
        simpa [distLt] using hc
      have hdA : distAt c P i < mv := by
        show colorDistanceSquared c (rgbZ (P.getD i (0, 0, 0))) < mv
        rw [← hget]; exact hd
      refine ih (i + 1) _ i (by omega) (by rw [hget]; rfl) ?_ ?_ (by omega) (by omega)
      · intro t ht
        rcases Nat.lt_succ_iff_lt_or_eq.mp ht with h | h
        · rw [hget]; exact le_of_lt (lt_of_lt_of_le hdA (hle t h))
        · subst h; rw [hget]; exact le_refl _
      · intro t ht
        rw [hget]; exact lt_of_lt_of_le hdA (hle t ht)
    · rw [if_neg (by simpa using hc)]
      have hd : mv ≤ colorDistanceSquared c (rgbZ P[i]) := by
        simp only [distLt, decide_eq_true_eq, Bool.not_eq_true] at hc
        omega
      refine ih (i + 1) mv best (by omega) hmv ?_ hlt (by omega) (by omega)
      intro t ht
      rcases Nat.lt_succ_iff_lt_or_eq.mp ht with h | h
      · exact hle t h
      · subst h
        show mv ≤ colorDistanceSquared c (rgbZ (P.getD t (0, 0, 0)))
        rw [← hget]; exact hd

/-- The two source loops (`findClosestColor` and `findClosestColorIndex`) branch
identically, so the color loop returns the entry at the index loop's index. -/
lemma fccLoop_agree (c : ℤ × ℤ × ℤ) (P : List RGB) :
    ∀ (n i : ℕ) (mv : ℤ) (best : ℕ), n = P.length - i → i ≤ P.length →
    fccLoop c (P.drop i) (some mv) (P.getD best (0, 0, 0)) =
      P.getD (fcciLoop c (P.drop i) i (some mv) best) (0, 0, 0) := by
  intro n
  induction n with
  | zero =>
    intro i mv best hn hiP
    have hi : i = P.length := by omega
    subst hi
    simp [List.drop_length, fcciLoop, fccLoop]
  | succ n ih =>
    intro i mv best hn hiP
    have hi : i < P.length := by omega
    rw [List.drop_eq_getElem_cons hi]
    simp only [fcciLoop, fccLoop]
    have hget : P[i] = P.getD i (0, 0, 0) := by
      simp [List.getD_eq_getElem?_getD, List.getElem?_eq_getElem hi]
    by_cases hc : distLt (colorDistanceSquared c (rgbZ P[i])) (some mv) = true
    · rw [if_pos hc, if_pos hc, hget]
      exact ih (i + 1) _ i (by omega) (by omega)
    · rw [if_neg (by simpa using hc), if_neg (by simpa using hc)]
      exact ih (i + 1) mv best (by omega) (by omega)

/-- Starting step shared by both loops: `minDist = Infinity` always accepts the
first palette entry. -/
lemma fcciLoop_start (c : ℤ × ℤ × ℤ) (p : RGB) (rest : List RGB) :
    fcciLoop c (p :: rest) 0 none 0 =
      fcciLoop c rest 1 (some (colorDistanceSquared c (rgbZ p))) 0 := by
  simp [fcciLoop, distLt]

/-- Starting step of the color loop. -/
lemma fccLoop_start (c : ℤ × ℤ × ℤ) (p : RGB) (rest : List RGB) (cl : RGB) :
    fccLoop c (p :: rest) none cl =
      fccLoop c rest (some (colorDistanceSquared c (rgbZ p))) p := by
  simp [fccLoop, distLt]

/-- **C5.** For channels in `[0,255]`, `findClosestColorIndex` returns a valid
palette index, `findClosestColor` returns the palette entry at that index, that
entry minimises the squared Euclidean distance over all 6 palette entries, every
earlier palette entry has strictly larger distance (ties resolve to the first
entry in canonical order black, white, green, blue, red, yellow), and every
palette entry is returned unchanged when used as input (fixed point).  The
functions are pure, hence deterministic. -/
theorem C5_nearest_minimal_first_tie (r g b : ℕ)
    (hr : r ≤ 255) (hg : g ≤ 255) (hb : b ≤ 255) :
    findClosestColorIndex r g b < ACEP_PALETTE.length ∧
    findClosestColor r g b = ACEP_PALETTE.getD (findClosestColorIndex r g b) (0, 0, 0) ∧
    (∀ i < ACEP_PALETTE.length,
      distTo r g b (ACEP_PALETTE.getD (findClosestColorIndex r g b) (0, 0, 0)) ≤
        distTo r g b (ACEP_PALETTE.getD i (0, 0, 0))) ∧
    (∀ i < findClosestColorIndex r g b,
      distTo r g b (ACEP_PALETTE.getD (findClosestColorIndex r g b) (0, 0, 0)) <
        distTo r g b (ACEP_PALETTE.getD i (0, 0, 0))) ∧
    (∀ p ∈ ACEP_PALETTE, findClosestColor p.1 p.2.1 p.2.2 = p) := by
  have hcons : ACEP_PALETTE = (0, 0, 0) :: ACEP_PALETTE.drop 1 := rfl
  have hd0 : colorDistanceSquared ((r : ℤ), (g : ℤ), (b : ℤ)) (rgbZ (0, 0, 0)) =
      distAt ((r : ℤ), (g : ℤ), (b : ℤ)) ACEP_PALETTE 0 := rfl
  have hidx : findClosestColorIndex r g b =
      fcciLoop ((r : ℤ), (g : ℤ), (b : ℤ)) (ACEP_PALETTE.drop 1) 1
        (some (distAt ((r : ℤ), (g : ℤ), (b : ℤ)) ACEP_PALETTE 0)) 0 := by
    conv_lhs => rw [findClosestColorIndex, hcons, fcciLoop_start]
    rw [hd0]
  have hcol : findClosestColor r g b =
      fccLoop ((r : ℤ), (g : ℤ), (b : ℤ)) (ACEP_PALETTE.drop 1)
        (some (distAt ((r : ℤ), (g : ℤ), (b : ℤ)) ACEP_PALETTE 0))
        (ACEP_PALETTE.getD 0 (0, 0, 0)) := by
    conv_lhs => rw [findClosestColor, hcons, fccLoop_start]
    rw [hd0]
    rfl
  have hinv := fcciLoop_inv ((r : ℤ), (g : ℤ), (b : ℤ)) ACEP_PALETTE
    (ACEP_PALETTE.length - 1) 1 (distAt ((r : ℤ), (g : ℤ), (b : ℤ)) ACEP_PALETTE 0) 0
    rfl rfl (by intro t ht; rw [Nat.lt_one_iff.mp ht])
    (by intro t ht; omega) (by omega) (by rw [show ACEP_PALETTE.length = 6 from rfl]; omega)
  have hagree := fccLoop_agree ((r : ℤ), (g : ℤ), (b : ℤ)) ACEP_PALETTE
    (ACEP_PALETTE.length - 1) 1 (distAt ((r : ℤ), (g : ℤ), (b : ℤ)) ACEP_PALETTE 0) 0
    rfl (by rw [show ACEP_PALETTE.length = 6 from rfl]; omega)
  rw [hidx, hcol]
  refine ⟨hinv.1, hagree, ?_, ?_, fcc_palette_fixed⟩
  · intro i hi
    have := hinv.2.1 i hi
    simpa [distTo, distAt] using this
  · intro i hi
    have := hinv.2.2 i hi
    simpa [distTo, distAt] using this

/-! ## Dithering engine (`src/processing/dither.js`) -/

/-- `clamp` from `dither.js`: `Math.max(0, Math.min(255, Math.round(value)))`;
JS `Math.round v` is `⌊v + 1/2⌋`. -/
def clamp (v : ℚ) : ℕ := (max 0 (min 255 ⌊v + 1/2⌋)).toNat

/-- Pointwise store into a buffer modelled as a function (`buf[i] = v`). -/
def upd (f : ℕ → ℚ) (i : ℕ) (v : ℚ) : ℕ → ℚ := fun j => if j = i then v else f j

/-- `pixels[i] += e`. -/
def addE (f : ℕ → ℚ) (i : ℕ) (e : ℚ) : ℕ → ℚ := upd f i (f i + e)

/-- The palette color chosen for the accumulator triple starting at `idx`
(`findClosestColor(clamp(oldR), clamp(oldG), clamp(oldB))` in the source). -/
def quantAt (pixels : ℕ → ℚ) (idx : ℕ) : RGB :=
  findClosestColor (clamp (pixels idx)) (clamp (pixels (idx + 1))) (clamp (pixels (idx + 2)))

/-- Channel `k` of an RGB triple. -/
def chan (k : ℕ) (p : RGB) : ℕ := if k = 0 then p.1 else if k = 1 then p.2.1 else p.2.2

/-- Per-channel quantization error `errR`/`errG`/`errB` at the pixel whose first
channel sits at `idx`: accumulator value minus chosen palette value. -/
def errAt (pixels : ℕ → ℚ) (idx k : ℕ) : ℚ :=
  pixels (idx + k) - (chan k (quantAt pixels idx) : ℚ)

/-- `pixels[idx] = newColor[0]; pixels[idx+1] = newColor[1]; pixels[idx+2] = newColor[2]`. -/
def writeRGB (pixels : ℕ → ℚ) (idx : ℕ) (nc : RGB) : ℕ → ℚ :=
  upd (upd (upd pixels idx (nc.1 : ℚ)) (idx + 1) (nc.2.1 : ℚ)) (idx + 2) (nc.2.2 : ℚ)

/-- One error-distribution block of the source
(`pixels[t] += errR * wgt / 16` for the three channels at base index `t`). -/
def ditherSpread (p : ℕ → ℚ) (t : ℕ) (eR eG eB wgt : ℚ) : ℕ → ℚ :=
  addE (addE (addE p t (eR * wgt / 16)) (t + 1) (eG * wgt / 16)) (t + 2) (eB * wgt / 16)

/-- Body of the per-pixel loop of `applyFloydSteinberg`: quantize the current
accumulator triple, overwrite it with the palette color, then distribute the
error to the in-bounds right, lower-left, lower and lower-right neighbors with
weights 7/16, 3/16, 5/16, 1/16. -/
def ditherPixel (width height channels x y : ℕ) (pixels : ℕ → ℚ) : ℕ → ℚ :=
  let idx := (y * width + x) * channels
  let nc := quantAt pixels idx
  let eR := errAt pixels idx 0
  let eG := errAt pixels idx 1
  let eB := errAt pixels idx 2
  let p0 := writeRGB pixels idx nc
  let p1 := if x + 1 < width then ditherSpread p0 (idx + channels) eR eG eB 7 else p0
  let p2 := if y + 1 < height ∧ 0 < x then
      ditherSpread p1 (((y + 1) * width + (x - 1)) * channels) eR eG eB 3
    else p1
  let p3 := if y + 1 < height then
      ditherSpread p2 (((y + 1) * width + x) * channels) eR eG eB 5
    else p2
  if y + 1 < height ∧ x + 1 < width then
    ditherSpread p3 (((y + 1) * width + (x + 1)) * channels) eR eG eB 1
  else p3

/-- The row-major (`for y ... for x ...`) double loop of `applyFloydSteinberg`. -/
def ditherPass (width height channels : ℕ) (pixels : ℕ → ℚ) : ℕ → ℚ :=
  (List.range height).foldl
    (fun px y =>
      (List.range width).foldl (fun q x => ditherPixel width height channels x y q) px)
    pixels

/-- Computational core of `applyFloydSteinberg` from `dither.js`, between the raw
RGB extraction and the PNG encode: copy the byte data into a float accumulator
buffer, run the row-major error-diffusion pass, then clamp back into a byte
buffer of length `width*height*channels`.  As for the JS `Uint8Array` copy loop,
output positions at or past `data.length` are never written (they stay 0) and
processed values past the output length are dropped.  No dimension check of any
kind is performed. -/
def applyFloydSteinbergCore (data : List ℕ) (width height channels : ℕ) : List ℕ :=
  let pixels0 : ℕ → ℚ := fun i => ((data.getD i 0 : ℕ) : ℚ)
  let pf := ditherPass width height channels pixels0
  (List.range (width * height * channels)).map
    (fun i => if i < data.length then clamp (pf i) else 0)

/-- Byte store of `quantizeOnly` (`outputData[i] = c.r` etc. at base `i`). -/
def upd3 (f : ℕ → ℕ) (i : ℕ) (c : RGB) : ℕ → ℕ :=
  fun j => if j = i then c.1 else if j = i + 1 then c.2.1 else if j = i + 2 then c.2.2 else f j

/-- One iteration of the `quantizeOnly` loop: write the closest palette color
for the pixel whose channels start at byte `i`. -/
def quantStep (data : List ℕ) (o : ℕ → ℕ) (i : ℕ) : ℕ → ℕ :=
  upd3 o i (findClosestColor (data.getD i 0) (data.getD (i + 1) 0) (data.getD (i + 2) 0))

/-- Computational core of `quantizeOnly` from `dither.js` (loop assembled from
`quantStep`): map each pixel of the raw buffer to the closest palette color, the
loop index stepping by `channels` over the whole buffer
(`for (let i = 0; i < data.length; i += channels)`); the supplied
`width`/`height` play no part in the loop.  No dimension check of any kind is
performed. -/
def quantizeOnlyCore (data : List ℕ) (channels : ℕ) : List ℕ :=
  let steps := List.range' 0 ((data.length + channels - 1) / channels) channels
  let out := steps.foldl (quantStep data) (fun _ => 0)
  (List.range data.length).map out

/-- Clamping an already in-range integral accumulator value returns it
unchanged (JS `Math.round` on an integer is the identity). -/
lemma clamp_natCast (n : ℕ) : clamp ((n : ℕ) : ℚ) = min n 255 := by
  have h : ⌊((n : ℕ) : ℚ) + 1 / 2⌋ = (n : ℤ) := by
    rw [Int.floor_eq_iff]
    constructor
    · push_cast
      norm_num
    · push_cast
      norm_num
  simp only [clamp, h]
  omega

/-- **C1 counterexample.**  The spec claims a `width`/`height` pair that
disagrees with the buffer's pixel count makes `applyFloydSteinberg` fail fast
with a descriptive error and never silently truncate.  The code has no
dimension check at all: on a 2-pixel buffer declared as 1×1 it completes
normally and silently truncates the raster to the first pixel. -/
theorem C1_counterexample :
    ([10, 20, 30, 40, 50, 60] : List ℕ).length = 6 ∧
    1 * 1 * 3 ≠ ([10, 20, 30, 40, 50, 60] : List ℕ).length ∧
    applyFloydSteinbergCore [10, 20, 30, 40, 50, 60] 1 1 3 = [0, 0, 0] := by
  refine ⟨rfl, by decide, ?_⟩
  have hc10 : clamp 10 = 10 := by norm_num [clamp]; rfl
  have hc20 : clamp 20 = 20 := by norm_num [clamp]; rfl
  have hc30 : clamp 30 = 30 := by norm_num [clamp]; rfl
  have hc0 : clamp 0 = 0 := by norm_num [clamp]
  have hq : findClosestColor 10 20 30 = (0, 0, 0) := by decide
  norm_num [applyFloydSteinbergCore, ditherPass, ditherPixel, quantAt, errAt, writeRGB,
    upd, addE, hc10, hc20, hc30, hc0, hq, List.range_succ]

/-- **C1 amended.**  `applyFloydSteinberg` and `quantizeOnly` perform no
dimension validation whatsoever: for every buffer and every supplied
`width`/`height` the dither core completes with an output of exactly
`width*height*channels` bytes (truncating or zero-padding a mismatched buffer),
and the quantize core always processes the whole buffer, ignoring the supplied
dimensions. -/
theorem C1_no_dimension_check (data : List ℕ) (width height : ℕ) :
    (applyFloydSteinbergCore data width height 3).length = width * height * 3 ∧
    (quantizeOnlyCore data 3).length = data.length := by
  constructor
  · simp [applyFloydSteinbergCore]
  · simp [quantizeOnlyCore]

/-! Pointwise reading lemmas for the dithering stores. -/

/-- Reading a 3-channel error spread at a cell of the same base: the stored
value gains `err * wgt / 16` on the matching channel. -/
lemma ditherSpread_cell_eq (p : ℕ → ℚ) (m k : ℕ) (eR eG eB wgt : ℚ) (hk : k < 3) :
    ditherSpread p (m * 3) eR eG eB wgt (m * 3 + k) =
      p (m * 3 + k) + (if k = 0 then eR else if k = 1 then eG else eB) * wgt / 16 := by
  rcases k with _ | _ | _ | k
  · simp only [ditherSpread, addE, upd]
    split_ifs <;> first | rfl | omega | exact False.elim (by assumption) | exact False.elim (by assumption)
  · simp only [ditherSpread, addE, upd]
    split_ifs <;> first | rfl | omega | exact False.elim (by assumption) | exact False.elim (by assumption)
  · simp only [ditherSpread, addE, upd]
    split_ifs <;> first | rfl | omega | exact False.elim (by assumption) | exact False.elim (by assumption)
  · omega

/-- Reading a 3-channel error spread at a cell of a different base leaves the
value unchanged. -/
lemma ditherSpread_cell_ne (p : ℕ → ℚ) (m n k : ℕ) (eR eG eB wgt : ℚ) (hk : k < 3)
    (hne : m ≠ n) :
    ditherSpread p (n * 3) eR eG eB wgt (m * 3 + k) = p (m * 3 + k) := by
  simp only [ditherSpread, addE, upd]
  split_ifs <;> first | rfl | omega | exact False.elim (by assumption)

/-- Reading the palette overwrite at its own cell yields the palette channel. -/
lemma writeRGB_cell_eq (p : ℕ → ℚ) (m k : ℕ) (nc : RGB) (hk : k < 3) :
    writeRGB p (m * 3) nc (m * 3 + k) = ((chan k nc : ℕ) : ℚ) := by
  rcases k with _ | _ | _ | k
  · simp only [writeRGB, upd, chan]
    split_ifs <;> first | rfl | omega | exact False.elim (by assumption) | exact False.elim (by assumption)
  · simp only [writeRGB, upd, chan]
    split_ifs <;> first | rfl | omega | exact False.elim (by assumption) | exact False.elim (by assumption)
  · simp only [writeRGB, upd, chan]
    split_ifs <;> first | rfl | omega | exact False.elim (by assumption) | exact False.elim (by assumption)
  · omega

/-- Reading the palette overwrite at another cell leaves the value unchanged. -/
lemma writeRGB_cell_ne (p : ℕ → ℚ) (m n k : ℕ) (nc : RGB) (hk : k < 3) (hne : m ≠ n) :
    writeRGB p (n * 3) nc (m * 3 + k) = p (m * 3 + k) := by
  simp only [writeRGB, upd]
  split_ifs <;> first | rfl | omega | exact False.elim (by assumption)

/-- Row-major linear indices of distinct raster cells are distinct. -/
lemma linNe (w a b a' b' : ℕ) (hb : b < w) (hb' : b' < w) (hne : ¬(a = a' ∧ b = b')) :
    a * w + b ≠ a' * w + b' := by
  intro h
  rcases Nat.lt_trichotomy a a' with hlt | heq | hgt
  · have h2 : (a + 1) * w ≤ a' * w := Nat.mul_le_mul_right w hlt
    have h3 : (a + 1) * w = a * w + w := by ring
    omega
  · subst heq
    omega
  · have h2 : (a' + 1) * w ≤ a * w := Nat.mul_le_mul_right w hgt
    have h3 : (a' + 1) * w = a' * w + w := by ring
    omega

/-- Selecting one of the three per-channel errors by channel index. -/
lemma errAt_sel (pixels : ℕ → ℚ) (m k : ℕ) (hk : k < 3) :
    (if k = 0 then errAt pixels m 0 else if k = 1 then errAt pixels m 1
      else errAt pixels m 2) = errAt pixels m k := by
  rcases k with _ | _ | _ | k
  · rfl
  · rfl
  · rfl
  · omega

/-- **C3.** Per-pixel effect of one Floyd-Steinberg step on a 3-channel raster:
processing pixel `(x, y)` overwrites its own accumulator cells with the chosen
palette color and adds exactly `error * 7/16`, `3/16`, `5/16`, `1/16` of the
per-channel quantization error to the right, lower-left, lower and lower-right
neighbors respectively; every other cell of the raster is untouched, and
neighbors falling outside the raster bounds simply receive nothing (the
quantification over in-bounds cells `(px, py)` covers the whole raster, so no
wraparound write exists). -/
theorem C3_error_diffusion_step (w h x y px py k : ℕ) (pixels : ℕ → ℚ)
    (hx : x < w) (hy : y < h) (hpx : px < w) (hpy : py < h) (hk : k < 3) :
    ditherPixel w h 3 x y pixels ((py * w + px) * 3 + k) =
      (if py = y ∧ px = x then ((chan k (quantAt pixels ((y * w + x) * 3)) : ℕ) : ℚ)
       else if py = y ∧ px = x + 1 then
         pixels ((py * w + px) * 3 + k) + errAt pixels ((y * w + x) * 3) k * 7 / 16
       else if py = y + 1 ∧ px + 1 = x then
         pixels ((py * w + px) * 3 + k) + errAt pixels ((y * w + x) * 3) k * 3 / 16
       else if py = y + 1 ∧ px = x then
         pixels ((py * w + px) * 3 + k) + errAt pixels ((y * w + x) * 3) k * 5 / 16
       else if py = y + 1 ∧ px = x + 1 then
         pixels ((py * w + px) * 3 + k) + errAt pixels ((y * w + x) * 3) k * 1 / 16
       else pixels ((py * w + px) * 3 + k)) := by
  simp only [ditherPixel]
  rw [show (y * w + x) * 3 + 3 = (y * w + (x + 1)) * 3 from by ring]
  by_cases c1 : py = y ∧ px = x
  · rw [if_pos c1]
    rw [show py * w + px = y * w + x from by rw [c1.1, c1.2]]
    by_cases g1 : x + 1 < w
    · rw [ite_apply, ditherSpread_cell_ne _ _ _ _ _ _ _ _ hk
        (linNe w y x (y + 1) (x + 1) hx g1 (by omega)), ite_self]
      rw [ite_apply, ditherSpread_cell_ne _ _ _ _ _ _ _ _ hk
        (linNe w y x (y + 1) x hx hx (by omega)), ite_self]
      rw [ite_apply, ditherSpread_cell_ne _ _ _ _ _ _ _ _ hk
        (linNe w y x (y + 1) (x - 1) hx (by omega) (by omega)), ite_self]
      rw [if_pos g1, ditherSpread_cell_ne _ _ _ _ _ _ _ _ hk
        (linNe w y x y (x + 1) hx g1 (by omega))]
      exact writeRGB_cell_eq pixels (y * w + x) k _ hk
    · rw [if_neg (show ¬(y + 1 < h ∧ x + 1 < w) by omega)]
      rw [ite_apply, ditherSpread_cell_ne _ _ _ _ _ _ _ _ hk
        (linNe w y x (y + 1) x hx hx (by omega)), ite_self]
      rw [ite_apply, ditherSpread_cell_ne _ _ _ _ _ _ _ _ hk
        (linNe w y x (y + 1) (x - 1) hx (by omega) (by omega)), ite_self]
      rw [if_neg g1]
      exact writeRGB_cell_eq pixels (y * w + x) k _ hk
  · rw [if_neg c1]
    by_cases c2 : py = y ∧ px = x + 1
    · rw [if_pos c2]
      rw [show py * w + px = y * w + (x + 1) from by rw [c2.1, c2.2]]
      have g1 : x + 1 < w := by omega
      rw [ite_apply, ditherSpread_cell_ne _ _ _ _ _ _ _ _ hk
        (linNe w y (x + 1) (y + 1) (x + 1) g1 g1 (by omega)), ite_self]
      rw [ite_apply, ditherSpread_cell_ne _ _ _ _ _ _ _ _ hk
        (linNe w y (x + 1) (y + 1) x g1 hx (by omega)), ite_self]
      rw [ite_apply, ditherSpread_cell_ne _ _ _ _ _ _ _ _ hk
        (linNe w y (x + 1) (y + 1) (x - 1) g1 (by omega) (by omega)), ite_self]
      rw [if_pos g1, ditherSpread_cell_eq _ _ _ _ _ _ _ hk]
      rw [writeRGB_cell_ne _ _ _ _ _ hk (linNe w y (x + 1) y x g1 hx (by omega))]
      rw [errAt_sel _ _ _ hk]
    · rw [if_neg c2]
      by_cases c3 : py = y + 1 ∧ px + 1 = x
      · rw [if_pos c3]
        rw [show py * w + px = (y + 1) * w + (x - 1) from by rw [c3.1, ← c3.2]; simp]
        have g2 : y + 1 < h ∧ 0 < x := ⟨by omega, by omega⟩
        by_cases g1 : x + 1 < w
        · rw [ite_apply, ditherSpread_cell_ne _ _ _ _ _ _ _ _ hk
            (linNe w (y + 1) (x - 1) (y + 1) (x + 1) (by omega) g1 (by omega)), ite_self]
          rw [ite_apply, ditherSpread_cell_ne _ _ _ _ _ _ _ _ hk
            (linNe w (y + 1) (x - 1) (y + 1) x (by omega) hx (by omega)), ite_self]
          rw [if_pos g2, ditherSpread_cell_eq _ _ _ _ _ _ _ hk]
          rw [if_pos g1, ditherSpread_cell_ne _ _ _ _ _ _ _ _ hk
            (linNe w (y + 1) (x - 1) y (x + 1) (by omega) g1 (by omega))]
          rw [writeRGB_cell_ne _ _ _ _ _ hk
            (linNe w (y + 1) (x - 1) y x (by omega) hx (by omega))]
          rw [errAt_sel _ _ _ hk]
        · rw [if_neg (show ¬(y + 1 < h ∧ x + 1 < w) by omega)]
          rw [ite_apply, ditherSpread_cell_ne _ _ _ _ _ _ _ _ hk
            (linNe w (y + 1) (x - 1) (y + 1) x (by omega) hx (by omega)), ite_self]
          rw [if_pos g2, ditherSpread_cell_eq _ _ _ _ _ _ _ hk]
          rw [if_neg g1]
          rw [writeRGB_cell_ne _ _ _ _ _ hk
            (linNe w (y + 1) (x - 1) y x (by omega) hx (by omega))]
          rw [errAt_sel _ _ _ hk]
      · rw [if_neg c3]
        by_cases c4 : py = y + 1 ∧ px = x
        · rw [if_pos c4]
          rw [show py * w + px = (y + 1) * w + x from by rw [c4.1, c4.2]]
          have g3 : y + 1 < h := by omega
          by_cases g1 : x + 1 < w
          · rw [if_pos (show y + 1 < h ∧ x + 1 < w from ⟨g3, g1⟩),
              ditherSpread_cell_ne _ _ _ _ _ _ _ _ hk
                (linNe w (y + 1) x (y + 1) (x + 1) hx g1 (by omega))]
            rw [if_pos g3, ditherSpread_cell_eq _ _ _ _ _ _ _ hk]
            by_cases g0 : 0 < x
            · rw [if_pos (show y + 1 < h ∧ 0 < x from ⟨g3, g0⟩),
                ditherSpread_cell_ne _ _ _ _ _ _ _ _ hk
                  (linNe w (y + 1) x (y + 1) (x - 1) hx (by omega) (by omega))]
              rw [if_pos g1, ditherSpread_cell_ne _ _ _ _ _ _ _ _ hk
                (linNe w (y + 1) x y (x + 1) hx g1 (by omega))]
              rw [writeRGB_cell_ne _ _ _ _ _ hk (linNe w (y + 1) x y x hx hx (by omega))]
              rw [errAt_sel _ _ _ hk]
            · rw [if_neg (show ¬(y + 1 < h ∧ 0 < x) by omega)]
              rw [if_pos g1, ditherSpread_cell_ne _ _ _ _ _ _ _ _ hk
                (linNe w (y + 1) x y (x + 1) hx g1 (by omega))]
              rw [writeRGB_cell_ne _ _ _ _ _ hk (linNe w (y + 1) x y x hx hx (by omega))]
              rw [errAt_sel _ _ _ hk]
          · rw [if_neg (show ¬(y + 1 < h ∧ x + 1 < w) by omega)]
            rw [if_pos g3, ditherSpread_cell_eq _ _ _ _ _ _ _ hk]
            by_cases g0 : 0 < x
            · rw [if_pos (show y + 1 < h ∧ 0 < x from ⟨g3, g0⟩),
                ditherSpread_cell_ne _ _ _ _ _ _ _ _ hk
                  (linNe w (y + 1) x (y + 1) (x - 1) hx (by omega) (by omega))]
              rw [if_neg g1]
              rw [writeRGB_cell_ne _ _ _ _ _ hk (linNe w (y + 1) x y x hx hx (by omega))]
              rw [errAt_sel _ _ _ hk]
            · rw [if_neg (show ¬(y + 1 < h ∧ 0 < x) by omega)]
              rw [if_neg g1]
              rw [writeRGB_cell_ne _ _ _ _ _ hk (linNe w (y + 1) x y x hx hx (by omega))]
              rw [errAt_sel _ _ _ hk]
        · rw [if_neg c4]
          by_cases c5 : py = y + 1 ∧ px = x + 1
          · rw [if_pos c5]
            rw [show py * w + px = (y + 1) * w + (x + 1) from by rw [c5.1, c5.2]]
            have g3 : y + 1 < h := by omega
            have g1 : x + 1 < w := by omega
            rw [if_pos (show y + 1 < h ∧ x + 1 < w from ⟨g3, g1⟩),
              ditherSpread_cell_eq _ _ _ _ _ _ _ hk]
            rw [if_pos g3, ditherSpread_cell_ne _ _ _ _ _ _ _ _ hk
              (linNe w (y + 1) (x + 1) (y + 1) x g1 hx (by omega))]
            by_cases g0 : 0 < x
            · rw [if_pos (show y + 1 < h ∧ 0 < x from ⟨g3, g0⟩),
                ditherSpread_cell_ne _ _ _ _ _ _ _ _ hk
                  (linNe w (y + 1) (x + 1) (y + 1) (x - 1) g1 (by omega) (by omega))]
              rw [if_pos g1, ditherSpread_cell_ne _ _ _ _ _ _ _ _ hk
                (linNe w (y + 1) (x + 1) y (x + 1) g1 g1 (by omega))]
              rw [writeRGB_cell_ne _ _ _ _ _ hk
                (linNe w (y + 1) (x + 1) y x g1 hx (by omega))]
              rw [errAt_sel _ _ _ hk]
            · rw [if_neg (show ¬(y + 1 < h ∧ 0 < x) by omega)]
              rw [if_pos g1, ditherSpread_cell_ne _ _ _ _ _ _ _ _ hk
                (linNe w (y + 1) (x + 1) y (x + 1) g1 g1 (by omega))]
              rw [writeRGB_cell_ne _ _ _ _ _ hk
                (linNe w (y + 1) (x + 1) y x g1 hx (by omega))]
              rw [errAt_sel _ _ _ hk]
          · rw [if_neg c5]
            by_cases g1 : x + 1 < w
            · rw [ite_apply, ditherSpread_cell_ne _ _ _ _ _ _ _ _ hk
                (linNe w py px (y + 1) (x + 1) hpx g1 (by omega)), ite_self]
              rw [ite_apply, ditherSpread_cell_ne _ _ _ _ _ _ _ _ hk
                (linNe w py px (y + 1) x hpx hx (by omega)), ite_self]
              by_cases g0 : 0 < x
              · rw [ite_apply, ditherSpread_cell_ne _ _ _ _ _ _ _ _ hk
                  (linNe w py px (y + 1) (x - 1) hpx (by omega) (by omega)), ite_self]
                rw [if_pos g1, ditherSpread_cell_ne _ _ _ _ _ _ _ _ hk
                  (linNe w py px y (x + 1) hpx g1 (by omega))]
                exact writeRGB_cell_ne _ _ _ _ _ hk (linNe w py px y x hpx hx (by omega))
              · rw [if_neg (show ¬(y + 1 < h ∧ 0 < x) by omega)]
                rw [if_pos g1, ditherSpread_cell_ne _ _ _ _ _ _ _ _ hk
                  (linNe w py px y (x + 1) hpx g1 (by omega))]
                exact writeRGB_cell_ne _ _ _ _ _ hk (linNe w py px y x hpx hx (by omega))
            · rw [if_neg (show ¬(y + 1 < h ∧ x + 1 < w) by omega)]
              rw [ite_apply, ditherSpread_cell_ne _ _ _ _ _ _ _ _ hk
                (linNe w py px (y + 1) x hpx hx (by omega)), ite_self]
              by_cases g0 : 0 < x
              · rw [ite_apply, ditherSpread_cell_ne _ _ _ _ _ _ _ _ hk
                  (linNe w py px (y + 1) (x - 1) hpx (by omega) (by omega)), ite_self]
                rw [if_neg g1]
                exact writeRGB_cell_ne _ _ _ _ _ hk (linNe w py px y x hpx hx (by omega))
              · rw [if_neg (show ¬(y + 1 < h ∧ 0 < x) by omega)]
                rw [if_neg g1]
                exact writeRGB_cell_ne _ _ _ _ _ hk (linNe w py px y x hpx hx (by omega))

/-! ## Closure of the dithering outputs over the palette (C6) -/

/-- The result of the `findClosestColor` loop is always a palette entry. -/
lemma fccLoop_mem (c : ℤ × ℤ × ℤ) :
    ∀ (L : List RGB) (mind : Option ℤ) (cl : RGB),
    fccLoop c L mind cl = cl ∨ fccLoop c L mind cl ∈ L := by
  intro L
  induction L with
  | nil => intro mind cl; left; rfl
  | cons p rest ih =>
    intro mind cl
    simp only [fccLoop]
    by_cases hc : distLt (colorDistanceSquared c (rgbZ p)) mind = true
    · rw [if_pos hc]
      rcases ih (some (colorDistanceSquared c (rgbZ p))) p with h | h
      · right; rw [h]; exact List.mem_cons_self _ _
      · right; exact List.mem_cons_of_mem _ h
    · rw [if_neg (by simpa using hc)]
      rcases ih mind cl with h | h
      · left; exact h
      · right; exact List.mem_cons_of_mem _ h

/-- `findClosestColor` always returns one of the 6 palette colors. -/
lemma findClosestColor_mem (r g b : ℕ) : findClosestColor r g b ∈ ACEP_PALETTE := by
  rcases fccLoop_mem ((r : ℤ), (g : ℤ), (b : ℤ)) ACEP_PALETTE none
    (ACEP_PALETTE.headD (0, 0, 0)) with h | h
  · rw [findClosestColor, h]; exact List.mem_cons_self _ _
  · exact h

/-- A pixel step never modifies raster cells strictly before its own pixel in
row-major order. -/
lemma ditherPixel_before (w h x y m k : ℕ) (px : ℕ → ℚ) (hx : x < w) (hk : k < 3)
    (hm : m < y * w + x) :
    ditherPixel w h 3 x y px (m * 3 + k) = px (m * 3 + k) := by
  have hb : (y + 1) * w = y * w + w := by ring
  simp only [ditherPixel]
  rw [show (y * w + x) * 3 + 3 = (y * w + (x + 1)) * 3 from by ring]
  rw [ite_apply, ditherSpread_cell_ne _ _ _ _ _ _ _ _ hk (by omega), ite_self]
  rw [ite_apply, ditherSpread_cell_ne _ _ _ _ _ _ _ _ hk (by omega), ite_self]
  rw [ite_apply, ditherSpread_cell_ne _ _ _ _ _ _ _ _ hk (by omega), ite_self]
  rw [ite_apply, ditherSpread_cell_ne _ _ _ _ _ _ _ _ hk (by omega), ite_self]
  exact writeRGB_cell_ne _ _ _ _ _ hk (by omega)

/-- A pixel step overwrites its own accumulator cells with the chosen palette
color. -/
lemma ditherPixel_own (w h x y k : ℕ) (px : ℕ → ℚ) (hx : x < w) (hk : k < 3) :
    ditherPixel w h 3 x y px ((y * w + x) * 3 + k) =
      ((chan k (quantAt px ((y * w + x) * 3)) : ℕ) : ℚ) := by
  have hb : (y + 1) * w = y * w + w := by ring
  simp only [ditherPixel]
  rw [show (y * w + x) * 3 + 3 = (y * w + (x + 1)) * 3 from by ring]
  rw [ite_apply, ditherSpread_cell_ne _ _ _ _ _ _ _ _ hk (by omega), ite_self]
  rw [ite_apply, ditherSpread_cell_ne _ _ _ _ _ _ _ _ hk (by omega), ite_self]
  rw [ite_apply, ditherSpread_cell_ne _ _ _ _ _ _ _ _ hk (by omega), ite_self]
  rw [ite_apply, ditherSpread_cell_ne _ _ _ _ _ _ _ _ hk (by omega), ite_self]
  exact writeRGB_cell_eq px (y * w + x) k _ hk

/-- Folding the pixel step over an explicit list of raster coordinates. -/
def processCells (w h c : ℕ) (cells : List (ℕ × ℕ)) (pixels : ℕ → ℚ) : ℕ → ℚ :=
  cells.foldl (fun px q => ditherPixel w h c q.1 q.2 px) pixels

/-- Row-major coordinate list of a `w × h` raster. -/
def rowMajor (w h : ℕ) : List (ℕ × ℕ) :=
  (List.range h).flatMap (fun y => (List.range w).map (fun x => (x, y)))

/-- The nested `for y / for x` loops process exactly the row-major cell list. -/
lemma ditherPass_eq_processCells (w h c : ℕ) (pixels : ℕ → ℚ) :
    ditherPass w h c pixels = processCells w h c (rowMajor w h) pixels := by
  suffices hgen : ∀ (n : ℕ) (px : ℕ → ℚ),
      (List.range n).foldl
        (fun px y => (List.range w).foldl (fun q x => ditherPixel w h c x y q) px) px =
      ((List.range n).flatMap (fun y => (List.range w).map (fun x => (x, y)))).foldl
        (fun px q => ditherPixel w h c q.1 q.2 px) px by
    exact hgen h pixels
  intro n
  induction n with
  | zero => intro px; rfl
  | succ n ih =>
    intro px
    simp only [List.range_succ, List.flatMap_append, List.foldl_append, ih,
      List.flatMap_cons, List.flatMap_nil, List.append_nil, List.foldl_map,
      List.foldl_cons, List.foldl_nil]

/-- Every coordinate of the row-major list is in bounds. -/
lemma rowMajor_valid (w h : ℕ) : ∀ q ∈ rowMajor w h, q.1 < w ∧ q.2 < h := by
  intro q hq
  simp only [rowMajor, List.mem_flatMap, List.mem_map, List.mem_range] at hq
  obtain ⟨y, hy, x, hx, rfl⟩ := hq
  exact ⟨hx, hy⟩

/-- Every in-bounds coordinate appears in the row-major list. -/
lemma rowMajor_mem (w h x y : ℕ) (hx : x < w) (hy : y < h) : (x, y) ∈ rowMajor w h := by
  simp only [rowMajor, List.mem_flatMap, List.mem_map, List.mem_range]
  exact ⟨y, hy, x, hx, rfl⟩

/-- The row-major list is strictly increasing in linear index. -/
lemma rowMajor_pairwise (w h : ℕ) :
    List.Pairwise (fun a b : ℕ × ℕ => a.2 * w + a.1 < b.2 * w + b.1) (rowMajor w h) := by
  induction h with
  | zero => simp [rowMajor]
  | succ n ih =>
    have hstep : rowMajor w (n + 1) = rowMajor w n ++ (List.range w).map (fun x => (x, n)) := by
      rw [rowMajor, rowMajor, List.range_succ, List.flatMap_append]
      simp [List.flatMap_cons]
    rw [hstep]
    apply List.pairwise_append.mpr
    refine ⟨ih, ?_, ?_⟩
    · rw [List.pairwise_map]
      have hr : List.Pairwise (· < ·) (List.range w) := List.pairwise_lt_range w
      exact hr.imp (by intro a b hab; simpa using hab)
    · intro a ha b hb
      obtain ⟨ha1, ha2⟩ := rowMajor_valid w n a ha
      simp only [List.mem_map, List.mem_range] at hb
      obtain ⟨x, hxw, rfl⟩ := hb
      have h2 : (a.2 + 1) * w ≤ n * w := Nat.mul_le_mul_right w ha2
      have h3 : (a.2 + 1) * w = a.2 * w + w := by ring
      simp only []
      omega

/-- Cells strictly before every cell of the processing list are untouched by
the whole fold. -/
lemma processCells_untouched (w h : ℕ) (L : List (ℕ × ℕ)) (m k : ℕ) (hk : k < 3) :
    ∀ (px : ℕ → ℚ), (∀ q ∈ L, q.1 < w ∧ m < q.2 * w + q.1) →
    processCells w h 3 L px (m * 3 + k) = px (m * 3 + k) := by
  induction L with
  | nil => intro px _; rfl
  | cons q L ih =>
    intro px hall
    show processCells w h 3 L (ditherPixel w h 3 q.1 q.2 px) (m * 3 + k) = px (m * 3 + k)
    rw [ih _ (fun r hr => hall r (List.mem_cons_of_mem _ hr))]
    exact ditherPixel_before w h q.1 q.2 m k px
      (hall q (List.mem_cons_self _ _)).1 hk (hall q (List.mem_cons_self _ _)).2

/-- After folding a strictly increasing list of valid cells, every processed
pixel holds a palette color exactly (as rational accumulator values). -/
lemma processCells_palette (w h : ℕ) (L : List (ℕ × ℕ)) :
    ∀ (px : ℕ → ℚ), (∀ q ∈ L, q.1 < w ∧ q.2 < h) →
    List.Pairwise (fun a b : ℕ × ℕ => a.2 * w + a.1 < b.2 * w + b.1) L →
    ∀ q ∈ L, ∃ pc ∈ ACEP_PALETTE, ∀ k < 3,
      processCells w h 3 L px ((q.2 * w + q.1) * 3 + k) = ((chan k pc : ℕ) : ℚ) := by
  induction L with
  | nil => intro px _ _ q hq; cases hq
  | cons q0 L ih =>
    intro px hv hs q hq
    have hstep : processCells w h 3 (q0 :: L) px =
        processCells w h 3 L (ditherPixel w h 3 q0.1 q0.2 px) := rfl
    rcases List.mem_cons.mp hq with rfl | hq'
    · refine ⟨quantAt px ((q.2 * w + q.1) * 3), ?_, ?_⟩
      · exact findClosestColor_mem _ _ _
      · intro k hk
        rw [hstep, processCells_untouched w h L ((q.2 * w + q.1)) k hk _
          (fun r hr => ⟨(hv r (List.mem_cons_of_mem _ hr)).1,
            (List.pairwise_cons.mp hs).1 r hr⟩)]
        exact ditherPixel_own w h q.1 q.2 k px (hv q (List.mem_cons_self _ _)).1 hk
    · rw [hstep]
      exact ih (ditherPixel w h 3 q0.1 q0.2 px)
        (fun r hr => hv r (List.mem_cons_of_mem _ hr))
        (List.pairwise_cons.mp hs).2 q hq'

/-- Reading `upd3` strictly below its write window. -/
lemma upd3_lt (f : ℕ → ℕ) (i j : ℕ) (c : RGB) (hj : j < i) : upd3 f i c j = f j := by
  simp only [upd3]
  split_ifs <;> first | rfl | omega | exact False.elim (by assumption)

/-- Reading `upd3` inside its write window. -/
lemma upd3_at (f : ℕ → ℕ) (i k : ℕ) (c : RGB) (hk : k < 3) : upd3 f i c (i + k) = chan k c := by
  rcases k with _ | _ | _ | k
  · simp only [upd3, chan]
    split_ifs <;> first | rfl | omega | exact False.elim (by assumption)
  · simp only [upd3, chan]
    split_ifs <;> first | rfl | omega | exact False.elim (by assumption)
  · simp only [upd3, chan]
    split_ifs <;> first | rfl | omega | exact False.elim (by assumption)
  · omega

/-- The `quantizeOnly` loop never writes below its starting byte index. -/
lemma quantFold_untouched (data : List ℕ) :
    ∀ (n s j : ℕ) (out : ℕ → ℕ), j < s →
    ((List.range' s n 3).foldl (quantStep data) out) j = out j := by
  intro n
  induction n with
  | zero => intro s j out _; rfl
  | succ n ih =>
    intro s j out h
    show ((List.range' (s + 3) n 3).foldl (quantStep data) (quantStep data out s)) j = out j
    rw [ih (s + 3) j _ (by omega)]
    exact upd3_lt _ _ _ _ h

/-- Value written by the `quantizeOnly` loop at each processed channel. -/
lemma quantFold_values (data : List ℕ) :
    ∀ (n s : ℕ) (out : ℕ → ℕ) (t k : ℕ), t < n → k < 3 →
    ((List.range' s n 3).foldl (quantStep data) out) (s + 3 * t + k) =
      chan k (findClosestColor (data.getD (s + 3 * t) 0) (data.getD (s + 3 * t + 1) 0)
        (data.getD (s + 3 * t + 2) 0)) := by
  intro n
  induction n with
  | zero => intro s out t k ht _; omega
  | succ n ih =>
    intro s out t k ht hk
    show ((List.range' (s + 3) n 3).foldl (quantStep data) (quantStep data out s))
        (s + 3 * t + k) = _
    rcases t with _ | t
    · simp only [Nat.mul_zero, Nat.add_zero]
      rw [quantFold_untouched data n (s + 3) (s + k) _ (by omega)]
      exact upd3_at _ _ _ _ hk
    · have e : s + 3 * (t + 1) = s + 3 + 3 * t := by ring
      rw [e]
      exact ih (s + 3) (quantStep data out s) t k (by omega) hk

/-- Reading the `i`-th element of a mapped range. -/
lemma getD_map_range (n : ℕ) (f : ℕ → ℕ) (i : ℕ) (hi : i < n) :
    ((List.range n).map f).getD i 0 = f i := by
  rw [List.getD_eq_getElem?_getD, List.getElem?_map, List.getElem?_range hi]
  rfl

/-- Every channel of a palette color is at most 255. -/
lemma chan_le_255 (k : ℕ) (pc : RGB) (hpc : pc ∈ ACEP_PALETTE) : chan k pc ≤ 255 := by
  have h255 : pc.1 ≤ 255 ∧ pc.2.1 ≤ 255 ∧ pc.2.2 ≤ 255 := by
    fin_cases hpc <;> decide
  simp only [chan]
  split_ifs <;> omega

/-- Reassembling the three channels of an RGB triple. -/
lemma chan_eta (pc : RGB) : (chan 0 pc, chan 1 pc, chan 2 pc) = pc := rfl

/-- **C6.** Closure over the palette: on a buffer whose length matches the
supplied dimensions (3 channels), every pixel of `applyFloydSteinberg`'s output
and of `quantizeOnly`'s output is exactly one of the 6 palette colors, and for
the dither the final clamp-to-8-bit step is the identity on the already-assigned
palette accumulator values (the cast of each output byte equals the accumulator
left by the error-diffusion pass). -/
theorem C6_palette_closure (data : List ℕ) (w h : ℕ) (hlen : data.length = w * h * 3) :
    (∀ p < w * h,
      ((applyFloydSteinbergCore data w h 3).getD (p * 3) 0,
       (applyFloydSteinbergCore data w h 3).getD (p * 3 + 1) 0,
       (applyFloydSteinbergCore data w h 3).getD (p * 3 + 2) 0) ∈ ACEP_PALETTE) ∧
    (∀ p < w * h, ∀ k < 3,
      (((applyFloydSteinbergCore data w h 3).getD (p * 3 + k) 0 : ℕ) : ℚ) =
        ditherPass w h 3 (fun i => ((data.getD i 0 : ℕ) : ℚ)) (p * 3 + k)) ∧
    (∀ p < w * h,
      ((quantizeOnlyCore data 3).getD (p * 3) 0,
       (quantizeOnlyCore data 3).getD (p * 3 + 1) 0,
       (quantizeOnlyCore data 3).getD (p * 3 + 2) 0) ∈ ACEP_PALETTE) := by
  have hditherVals : ∀ p < w * h, ∃ pc ∈ ACEP_PALETTE,
      (∀ k < 3, (applyFloydSteinbergCore data w h 3).getD (p * 3 + k) 0 = chan k pc) ∧
      (∀ k < 3, ditherPass w h 3 (fun i => ((data.getD i 0 : ℕ) : ℚ)) (p * 3 + k) =
        ((chan k pc : ℕ) : ℚ)) := by
    intro p hp
    rcases Nat.eq_zero_or_pos w with rfl | hw
    · simp at hp
    have hx : p % w < w := Nat.mod_lt _ hw
    have hcm : w * h = h * w := Nat.mul_comm w h
    have hyy : p / w < h := by rw [Nat.div_lt_iff_lt_mul hw]; omega
    have hdm := Nat.div_add_mod p w
    have hcm2 : (p / w) * w = w * (p / w) := Nat.mul_comm _ _
    have hlin : (p / w) * w + p % w = p := by omega
    obtain ⟨pc, hpc, hvals⟩ := processCells_palette w h (rowMajor w h)
      (fun i => ((data.getD i 0 : ℕ) : ℚ)) (rowMajor_valid w h) (rowMajor_pairwise w h)
      (p % w, p / w) (rowMajor_mem w h _ _ hx hyy)
    simp only [hlin] at hvals
    have hpassVals : ∀ k < 3,
        ditherPass w h 3 (fun i => ((data.getD i 0 : ℕ) : ℚ)) (p * 3 + k) =
          ((chan k pc : ℕ) : ℚ) := by
      intro k hk
      rw [ditherPass_eq_processCells]
      exact hvals k hk
    refine ⟨pc, hpc, ?_, hpassVals⟩
    intro k hk
    have hidx : p * 3 + k < w * h * 3 := by omega
    show ((List.range (w * h * 3)).map
      (fun i => if i < data.length
        then clamp (ditherPass w h 3 (fun i => ((data.getD i 0 : ℕ) : ℚ)) i) else 0)).getD
        (p * 3 + k) 0 = chan k pc
    rw [getD_map_range _ _ _ hidx, if_pos (by omega), hpassVals k hk, clamp_natCast]
    have := chan_le_255 k pc hpc
    omega
  refine ⟨?_, ?_, ?_⟩
  · intro p hp
    obtain ⟨pc, hpc, hout, _⟩ := hditherVals p hp
    have h0 : (applyFloydSteinbergCore data w h 3).getD (p * 3) 0 = chan 0 pc := by
      simpa using hout 0 (by omega)
    rw [h0, hout 1 (by omega), hout 2 (by omega), chan_eta]
    exact hpc
  · intro p hp k hk
    obtain ⟨pc, hpc, hout, hpass⟩ := hditherVals p hp
    rw [hout k hk, hpass k hk]
  · have hsteps : (data.length + 3 - 1) / 3 = w * h := by omega
    have hquantVals : ∀ p < w * h, ∀ k < 3,
        (quantizeOnlyCore data 3).getD (p * 3 + k) 0 =
          chan k (findClosestColor (data.getD (p * 3) 0) (data.getD (p * 3 + 1) 0)
            (data.getD (p * 3 + 2) 0)) := by
      intro p hp k hk
      show ((List.range data.length).map
        ((List.range' 0 ((data.length + 3 - 1) / 3) 3).foldl (quantStep data)
          (fun _ => 0))).getD (p * 3 + k) 0 = _
      rw [getD_map_range _ _ _ (by omega), hsteps]
      have e : p * 3 + k = 0 + 3 * p + k := by ring
      have e0 : p * 3 = 0 + 3 * p := by ring
      rw [e, quantFold_values data (w * h) 0 _ p k hp hk, ← e0]
    intro p hp
    have h0 : (quantizeOnlyCore data 3).getD (p * 3) 0 =
        chan 0 (findClosestColor (data.getD (p * 3) 0) (data.getD (p * 3 + 1) 0)
          (data.getD (p * 3 + 2) 0)) := by
      simpa using hquantVals p hp 0 (by omega)
    rw [h0, hquantVals p hp 1 (by omega), hquantVals p hp 2 (by omega), chan_eta]
    exact findClosestColor_mem _ _ _

/-! ## Selection engine (`src/selection/picker.js`) -/

/-- Observable fields of a JS `Date`: epoch milliseconds (`getTime`) and the
calendar fields (`getFullYear`, `getMonth` 0-based, `getDate` 1-based). -/
structure DateT where
  ms : ℤ
  year : ℤ
  month : ℕ
  day : ℕ
deriving DecidableEq, Repr

/-- A catalog photo record: `url`, optional capture timestamp, and the
`isOnThisDay` tag the picker writes onto selected anniversary photos. -/
structure Photo where
  url : String
  timestamp : Option DateT
  isOnThisDay : Bool := false
deriving DecidableEq, Repr

/-- Placeholder for JS `undefined` reads out of the catalog array. -/
def defaultPhoto : Photo := ⟨"", none, false⟩

/-- One configured time bucket: `maxDays` (`none` = Infinity) and weight. -/
structure Bucket where
  maxDays : Option ℚ
  weight : ℚ
deriving DecidableEq, Repr

/-- Placeholder bucket for out-of-range reads. -/
def defaultBucket : Bucket := ⟨none, 0⟩

/-- The configuration fields the picker reads from `config.js`. -/
structure Config where
  timeBuckets : List Bucket
  historySize : ℕ
  onThisDayEnabled : Bool
  onThisDayWindowDays : ℕ
deriving Repr

/-- The picker's view of the wall clock: `Date.now()` in ms plus today's
calendar fields. -/
structure Clock where
  nowMs : ℤ
  month : ℕ
  day : ℕ
  year : ℤ
deriving Repr

/-- Cumulative day count before each 0-based month of the leap reference year
2000 used by `findOnThisDayPhotos` (`new Date(2000, month, day)`). -/
def monthOffset2000 (m : ℕ) : ℕ :=
  [0, 31, 60, 91, 121, 152, 182, 213, 244, 274, 305, 335].getD m 0

/-- Day number of a month/day pair inside the reference year 2000; differences
of these values are exactly `(new Date(2000,m,d) - new Date(2000,m',d')) / DAY_MS`
under a DST-free clock. -/
def doy2000 (m d : ℕ) : ℤ := (monthOffset2000 m : ℤ) + (d : ℤ)

/-- The filter predicate of `findOnThisDayPhotos`: the photo has a timestamp,
is not from the current year, and its month/day is within `windowDays` of
today's month/day, where the distance wraps via
`min(diffDays, 365 - diffDays)`. -/
def isOnThisDayPhoto (clock : Clock) (windowDays : ℕ) (photo : Photo) : Bool :=
  match photo.timestamp with
  | none => false
  | some t =>
    if t.year = clock.year then false
    else
      decide (min |doy2000 clock.month clock.day - doy2000 t.month t.day|
        (365 - |doy2000 clock.month clock.day - doy2000 t.month t.day|) ≤ (windowDays : ℤ))

/-- `findOnThisDayPhotos` from `picker.js`. -/
def findOnThisDayPhotos (clock : Clock) (photos : List Photo) (windowDays : ℕ) : List Photo :=
  photos.filter (isOnThisDayPhoto clock windowDays)

/-- `filterRecentlyShown` from `picker.js`, on catalog indices (the JS arrays
hold references into the catalog; indices model those references). -/
def filterRecentlyShown (recent : List String) (photos : List Photo) (idxs : List ℕ) : List ℕ :=
  idxs.filter (fun i => !(recent.contains (photos.getD i defaultPhoto).url))

/-- `selectRandom` from `picker.js`: `photos[Math.floor(r * photos.length)]`. -/
def selectRandom (r : ℚ) (l : List α) : Option α :=
  if l.length = 0 then none else l.get? (Int.toNat ⌊r * (l.length : ℚ)⌋)

/-- The `while (recentHistory.length > config.historySize) recentHistory.shift()`
loop. -/
def shiftWhile (l : List α) (n : ℕ) : List α :=
  if l.length > n then shiftWhile l.tail n else l
termination_by l.length
decreasing_by simp only [List.length_tail]; omega

/-- `addToHistory` from `picker.js`: push the url, then evict from the front
while over capacity. -/
def addToHistory (url : String) (hist : List String) (historySize : ℕ) : List String :=
  shiftWhile (hist ++ [url]) historySize

/-- Navigation history state: the ordered list plus the cursor
(`navigationIndex`, `-1` when empty). -/
structure NavState where
  hist : List Photo
  idx : ℤ
deriving DecidableEq, Repr

/-- `addToNavigationHistory` from `picker.js`: truncate forward history if the
cursor is not at the tail, append, move the cursor to the tail, then evict the
oldest entry (decrementing the cursor) if over `historySize * 2`. -/
def addToNavigationHistory (photo : Photo) (s : NavState) (historySize : ℕ) : NavState :=
  let hist1 := if s.idx < (s.hist.length : ℤ) - 1 then s.hist.take (s.idx + 1).toNat else s.hist
  let hist2 := hist1 ++ [photo]
  let idx2 : ℤ := (hist2.length : ℤ) - 1
  if hist2.length > historySize * 2 then ⟨hist2.tail, idx2 - 1⟩ else ⟨hist2, idx2⟩

/-- `getPreviousPhoto` from `picker.js` (returns the photo and the new state). -/
def getPreviousPhoto (s : NavState) : Option Photo × NavState :=
  if s.idx ≤ 0 then (none, s)
  else (s.hist.get? (s.idx - 1).toNat, ⟨s.hist, s.idx - 1⟩)

/-- `getNextPhoto` from `picker.js`. -/
def getNextPhoto (s : NavState) : Option Photo × NavState :=
  if s.idx ≥ (s.hist.length : ℤ) - 1 then (none, s)
  else (s.hist.get? (s.idx + 1).toNat, ⟨s.hist, s.idx + 1⟩)

/-- `getCurrentPhoto` from `picker.js`. -/
def getCurrentPhoto (s : NavState) : Option Photo :=
  if s.idx < 0 ∨ s.idx ≥ (s.hist.length : ℤ) then none else s.hist.get? s.idx.toNat

/-- `canGoPrevious` from `picker.js`. -/
def canGoPrevious (s : NavState) : Bool := decide (s.idx > 0)

/-- `canGoNext` from `picker.js`. -/
def canGoNext (s : NavState) : Bool := decide (s.idx < (s.hist.length : ℤ) - 1)

/-- `getNavigationStatus` from `picker.js`: `(index, total, canGoPrevious,
canGoNext)`. -/
def getNavigationStatus (s : NavState) : ℤ × ℕ × Bool × Bool :=
  (s.idx, s.hist.length, canGoPrevious s, canGoNext s)

/-- Age of a photo in (fractional) days, `(Date.now() - timestamp) / DAY_MS`. -/
def ageDays (clock : Clock) (t : DateT) : ℚ := ((clock.nowMs - t.ms : ℤ) : ℚ) / 86400000

/-- `ageDays <= bucket.maxDays`, where `none` models the Infinity bucket. -/
def ageLeMax (a : ℚ) : Option ℚ → Bool
  | none => true
  | some mx => decide (a ≤ mx)

/-- The `for`-loop index search (`findIdxAux p l i` = index of the first element
of `l` satisfying `p`, counting from `i`). -/
def findIdxAux (p : α → Bool) : List α → ℕ → Option ℕ
  | [], _ => none
  | a :: as, i => if p a then some i else findIdxAux p as (i + 1)

/-- Which bucket a photo lands in: the first bucket whose `maxDays` its age
satisfies, the last bucket otherwise, and the last (catch-all) bucket for
photos with no timestamp — as in `categorizePhotos`. -/
def bucketIndexOf (buckets : List Bucket) (clock : Clock) (photo : Photo) : ℕ :=
  match photo.timestamp with
  | none => buckets.length - 1
  | some t =>
    match findIdxAux (fun b => ageLeMax (ageDays clock t) b.maxDays) buckets 0 with
    | some i => i
    | none => buckets.length - 1

/-- `categorizePhotos` from `picker.js`, with catalog indices standing for the
photo references pushed into each bucket (catalog order is preserved). -/
def categorizePhotos (buckets : List Bucket) (clock : Clock) (photos : List Photo) :
    List (Bucket × List ℕ) :=
  (List.range buckets.length).map (fun j =>
    (buckets.getD j defaultBucket,
     (List.range photos.length).filter
       (fun i => decide (bucketIndexOf buckets clock (photos.getD i defaultPhoto) = j))))

/-- The buckets of `pickPhoto` after excluding recently shown photos
(`availableBuckets` in the source). -/
def availableBuckets (cfg : Config) (clock : Clock) (photos : List Photo)
    (recent : List String) : List (Bucket × List ℕ) :=
  (categorizePhotos cfg.timeBuckets clock photos).map
    (fun bc => (bc.1, filterRecentlyShown recent photos bc.2))

/-- `totalAvailable` in `pickPhoto`: candidates left over all buckets. -/
def totalAvailable (cfg : Config) (clock : Clock) (photos : List Photo)
    (recent : List String) : ℕ :=
  (availableBuckets cfg clock photos recent).foldl (fun s bc => s + bc.2.length) 0

/-- The cumulative-weight scan of `pickPhoto`
(`cumulative += bucket.weight; if (roll < cumulative) ...`). -/
def drawBucket (roll : ℚ) (cum : ℚ) : List (Bucket × List ℕ) → Option (Bucket × List ℕ)
  | [] => none
  | b :: rest => if roll < cum + b.1.weight then some b else drawBucket roll (cum + b.1.weight) rest

/-- The weighted random selection of `pickPhoto`: drop empty buckets, draw
`roll = random * activeWeight` over the surviving buckets' summed (original)
weights, then pick uniformly inside the drawn bucket.  Returns the selected
catalog index (if any) and the next unused random-stream position. -/
def weightedDraw (cfg : Config) (clock : Clock) (rand : ℕ → ℚ) (photos : List Photo)
    (recent : List String) (k : ℕ) : Option ℕ × ℕ :=
  let nonEmpty := (availableBuckets cfg clock photos recent).filter
    (fun bc => decide (0 < bc.2.length))
  let activeWeight := nonEmpty.foldl (fun s bc => s + bc.1.weight) 0
  let roll := rand k * activeWeight
  match drawBucket roll 0 nonEmpty with
  | some bc =>
    match selectRandom (rand (k + 1)) bc.2 with
    | some i => (some i, k + 2)
    | none => (none, k + 2)
  | none => (none, k + 1)

/-- `nonEmptyBuckets` in `pickPhoto`: the buckets surviving the draw after
empty candidate pools drop out. -/
def nonEmptyBuckets (cfg : Config) (clock : Clock) (photos : List Photo)
    (recent : List String) : List (Bucket × List ℕ) :=
  (availableBuckets cfg clock photos recent).filter (fun bc => decide (0 < bc.2.length))

/-- The mutable picker state: `recentHistory` and the navigation history. -/
structure PickState where
  recent : List String
  nav : NavState
deriving Repr

/-- Result of a `pickPhoto` call: the selected catalog index (`null` = `none`),
the catalog after the call (the on-this-day branch mutates the selected
record), the new picker state, and the next unused random-stream position. -/
structure PickResult where
  photo : Option ℕ
  catalog : List Photo
  state : PickState
  next : ℕ
deriving Repr

/-- The tail of `pickPhoto` after the on-this-day branch: if every bucket is
empty after exclusion, clear `recentHistory` and retry (the recursive result is
passed in); otherwise run the weighted draw and record the chosen photo into
both histories. -/
def afterOtdStage (cfg : Config) (clock : Clock) (rand : ℕ → ℚ) (photos : List Photo)
    (st : PickState) (k : ℕ) (retryResult : PickResult) : PickResult :=
  if totalAvailable cfg clock photos st.recent = 0 then retryResult
  else
    match weightedDraw cfg clock rand photos st.recent k with
    | (some i, k2) =>
      let sel := photos.getD i defaultPhoto
      ⟨some i, photos,
        { recent := addToHistory sel.url st.recent cfg.historySize,
          nav := addToNavigationHistory sel st.nav cfg.historySize }, k2⟩
    | (none, k2) => ⟨none, photos, st, k2⟩

/-- `pickPhoto` from `picker.js`, with an explicit fuel bounding the
clear-history-and-retry recursion (the source recurses unboundedly; fuel 0
returns Empty and is never reached from fuel ≥ 2, as proven below).  Random
draws are read off the stream `rand` at successive positions, matching the
source's `Math.random()` call order, including the short-circuit that skips the
50% anniversary gate when no anniversary candidate survives exclusion. -/
def pickPhotoF (cfg : Config) (clock : Clock) (rand : ℕ → ℚ) :
    ℕ → List Photo → PickState → ℕ → PickResult
  | 0, photos, st, k => ⟨none, photos, st, k⟩
  | fuel + 1, photos, st, k =>
    if photos.length = 0 then ⟨none, photos, st, k⟩
    else
      let otdAvail := filterRecentlyShown st.recent photos
        ((List.range photos.length).filter
          (fun i => isOnThisDayPhoto clock cfg.onThisDayWindowDays (photos.getD i defaultPhoto)))
      if cfg.onThisDayEnabled ∧ 0 < otdAvail.length then
        if rand k < 1 / 2 then
          match selectRandom (rand (k + 1)) otdAvail with
          | some i =>
            let photos2 := photos.set i { photos.getD i defaultPhoto with isOnThisDay := true }
            let sel := photos2.getD i defaultPhoto
            ⟨some i, photos2,
              { recent := addToHistory sel.url st.recent cfg.historySize,
                nav := addToNavigationHistory sel st.nav cfg.historySize }, k + 2⟩
          | none => ⟨none, photos, st, k + 2⟩
        else
          afterOtdStage cfg clock rand photos st (k + 1)
            (pickPhotoF cfg clock rand fuel photos { st with recent := [] } (k + 1))
      else
        afterOtdStage cfg clock rand photos st k
          (pickPhotoF cfg clock rand fuel photos { st with recent := [] } k)

/-- **C7.** Membership characterization of the anniversary candidate set: a
photo is in `findOnThisDayPhotos` exactly when it is in the catalog, has a
capture timestamp, its calendar year differs from the current year, and the
month/day distance to today — the minimum of the direct day difference (in the
leap reference year) and its 365-day complement, handling the Dec↔Jan wrap —
is at most the window; photos with no timestamp or dated in the current year
are always excluded. -/
theorem C7_on_this_day_characterization (clock : Clock) (photos : List Photo)
    (wdw : ℕ) (p : Photo) :
    p ∈ findOnThisDayPhotos clock photos wdw ↔
      p ∈ photos ∧ ∃ t : DateT, p.timestamp = some t ∧ t.year ≠ clock.year ∧
        min |doy2000 clock.month clock.day - doy2000 t.month t.day|
          (365 - |doy2000 clock.month clock.day - doy2000 t.month t.day|) ≤ (wdw : ℤ) := by
  rw [findOnThisDayPhotos, List.mem_filter]
  constructor
  · rintro ⟨hmem, hpred⟩
    refine ⟨hmem, ?_⟩
    rcases hts : p.timestamp with _ | t
    · simp [isOnThisDayPhoto, hts] at hpred
    · simp only [isOnThisDayPhoto, hts] at hpred
      by_cases hy : t.year = clock.year
      · rw [if_pos hy] at hpred; cases hpred
      · rw [if_neg hy] at hpred
        exact ⟨t, rfl, hy, by simpa using hpred⟩
  · rintro ⟨hmem, t, hts, hy, hd⟩
    refine ⟨hmem, ?_⟩
    simp only [isOnThisDayPhoto, hts]
    rw [if_neg hy]
    simpa using hd

/-- Normal form of `addToNavigationHistory` under the cursor invariant: it is
exactly truncate-to-cursor, append, and (on overflow) evict the head. -/
lemma addToNav_eq (p : Photo) (s : NavState) (hsize : ℕ)
    (hwf : -1 ≤ s.idx ∧ s.idx ≤ (s.hist.length : ℤ) - 1) :
    addToNavigationHistory p s hsize =
      (if (s.hist.take (s.idx + 1).toNat ++ [p]).length > hsize * 2
       then ⟨(s.hist.take (s.idx + 1).toNat ++ [p]).tail,
         ((s.hist.take (s.idx + 1).toNat ++ [p]).length : ℤ) - 1 - 1⟩
       else ⟨s.hist.take (s.idx + 1).toNat ++ [p],
         ((s.hist.take (s.idx + 1).toNat ++ [p]).length : ℤ) - 1⟩) := by
  simp only [addToNavigationHistory]
  by_cases ht : s.idx < (s.hist.length : ℤ) - 1
  · rw [if_pos ht]
  · rw [if_neg ht]
    have hidx : (s.idx + 1).toNat = s.hist.length := by omega
    rw [hidx, List.take_length]

/-- **C8.** Navigation-history invariants: appending truncates everything after
the cursor and then appends, the cursor lands on the new tail, the length stays
within `2 × history_size` (on overflow the oldest entry is evicted and the
cursor decremented, remaining valid), the cursor always satisfies
`-1 ≤ navigation_index ≤ length - 1`, `status().total` equals the
truncated-then-appended length, and the navigation operations preserve the
invariant. -/
theorem C8_navigation_invariants (p : Photo) (s : NavState) (hsize : ℕ)
    (hwf : -1 ≤ s.idx ∧ s.idx ≤ (s.hist.length : ℤ) - 1)
    (hcap : s.hist.length ≤ hsize * 2) :
    (-1 ≤ (addToNavigationHistory p s hsize).idx ∧
      (addToNavigationHistory p s hsize).idx =
        (((addToNavigationHistory p s hsize).hist.length : ℤ)) - 1) ∧
    (addToNavigationHistory p s hsize).hist.length ≤ hsize * 2 ∧
    (addToNavigationHistory p s hsize).hist =
      (if (s.hist.take (s.idx + 1).toNat ++ [p]).length > hsize * 2
       then (s.hist.take (s.idx + 1).toNat ++ [p]).tail
       else s.hist.take (s.idx + 1).toNat ++ [p]) ∧
    (getNavigationStatus (addToNavigationHistory p s hsize)).2.1 =
      min ((s.idx + 1).toNat + 1) (hsize * 2) ∧
    (-1 ≤ (getPreviousPhoto s).2.idx ∧
      (getPreviousPhoto s).2.idx ≤ (((getPreviousPhoto s).2.hist.length : ℤ)) - 1) ∧
    (-1 ≤ (getNextPhoto s).2.idx ∧
      (getNextPhoto s).2.idx ≤ (((getNextPhoto s).2.hist.length : ℤ)) - 1) := by
  have htake : (s.hist.take (s.idx + 1).toNat).length = (s.idx + 1).toNat := by
    rw [List.length_take]; omega
  have hlen : (s.hist.take (s.idx + 1).toNat ++ [p]).length = (s.idx + 1).toNat + 1 := by
    rw [List.length_append, htake]; rfl
  have hprev : -1 ≤ (getPreviousPhoto s).2.idx ∧
      (getPreviousPhoto s).2.idx ≤ (((getPreviousPhoto s).2.hist.length : ℤ)) - 1 := by
    rw [getPreviousPhoto]
    by_cases hp0 : s.idx ≤ 0
    · rw [if_pos hp0]; exact hwf
    · rw [if_neg hp0]; simp only; omega
  have hnext : -1 ≤ (getNextPhoto s).2.idx ∧
      (getNextPhoto s).2.idx ≤ (((getNextPhoto s).2.hist.length : ℤ)) - 1 := by
    rw [getNextPhoto]
    by_cases hpn : s.idx ≥ (s.hist.length : ℤ) - 1
    · rw [if_pos hpn]; exact hwf
    · rw [if_neg hpn]; simp only; omega
  rw [addToNav_eq p s hsize hwf]
  by_cases hov : (s.hist.take (s.idx + 1).toNat ++ [p]).length > hsize * 2
  · rw [if_pos hov, if_pos hov]
    simp only [getNavigationStatus]
    refine ⟨⟨by omega, ?_⟩, ?_, ?_, ?_, hprev, hnext⟩
    · first | trivial | (simp only [List.length_tail]; omega)
    · first | trivial | (simp only [List.length_tail]; omega)
    · first | trivial | (simp only [List.length_tail]; omega)
    · first | trivial | (simp only [List.length_tail]; omega)
  · rw [if_neg hov, if_neg hov]
    simp only [getNavigationStatus]
    refine ⟨⟨by omega, ?_⟩, ?_, ?_, ?_, hprev, hnext⟩
    · first | trivial | omega
    · first | trivial | omega
    · first | trivial | omega
    · first | trivial | omega

/-- **C10.** `previous()` then `next()` restores the cursor and returns the
record `current()` returned before the pair, whenever the cursor is not at its
initial bound; at the ends, `previous()`/`next()` return `None` without
changing any state. -/
theorem C10_prev_next_roundtrip (s : NavState)
    (hwf : -1 ≤ s.idx ∧ s.idx ≤ (s.hist.length : ℤ) - 1) :
    (0 < s.idx →
      (getNextPhoto (getPreviousPhoto s).2).2 = s ∧
      (getNextPhoto (getPreviousPhoto s).2).1 = getCurrentPhoto s) ∧
    (s.idx ≤ 0 → getPreviousPhoto s = (none, s)) ∧
    ((s.hist.length : ℤ) - 1 ≤ s.idx → getNextPhoto s = (none, s)) := by
  refine ⟨?_, ?_, ?_⟩
  · intro hpos
    rw [getPreviousPhoto, if_neg (by omega)]
    rw [getNextPhoto]
    simp only
    rw [if_neg (by omega)]
    simp only
    have he : s.idx - 1 + 1 = s.idx := by omega
    rw [he, getCurrentPhoto, if_neg (by omega)]
    exact ⟨rfl, rfl⟩
  · intro h0
    rw [getPreviousPhoto, if_pos h0]
  · intro hend
    rw [getNextPhoto, if_pos (by omega)]

/-- A pick result left the catalog intact except that, at most, the selected
record's `isOnThisDay` tag was set: lengths agree, `url` and `timestamp` of
every record are unchanged, and a record's `isOnThisDay` may differ only by
being set to `true` on the record the call returned. -/
def KeepsCatalog (photos : List Photo) (r : PickResult) : Prop :=
  r.catalog.length = photos.length ∧
  ∀ j : ℕ,
    (r.catalog.getD j defaultPhoto).url = (photos.getD j defaultPhoto).url ∧
    (r.catalog.getD j defaultPhoto).timestamp = (photos.getD j defaultPhoto).timestamp ∧
    ((r.catalog.getD j defaultPhoto).isOnThisDay = (photos.getD j defaultPhoto).isOnThisDay ∨
      (r.photo = some j ∧ (r.catalog.getD j defaultPhoto).isOnThisDay = true))

/-- Results that return the catalog unchanged keep it. -/
lemma keeps_of_id (photos : List Photo) (p : Option ℕ) (st : PickState) (k : ℕ) :
    KeepsCatalog photos ⟨p, photos, st, k⟩ :=
  ⟨rfl, fun _ => ⟨rfl, rfl, Or.inl rfl⟩⟩

/-- The post-anniversary stage never touches the catalog beyond what the retry
result did. -/
lemma afterOtd_keeps (cfg : Config) (clock : Clock) (rand : ℕ → ℚ) (photos : List Photo)
    (st : PickState) (k : ℕ) (rr : PickResult) (hrr : KeepsCatalog photos rr) :
    KeepsCatalog photos (afterOtdStage cfg clock rand photos st k rr) := by
  rw [afterOtdStage]
  split
  · exact hrr
  · split
    · exact keeps_of_id _ _ _ _
    · exact keeps_of_id _ _ _ _

/-- Setting the tag on the selected record keeps the catalog in the above
sense. -/
lemma keeps_of_set (photos : List Photo) (i : ℕ) (st : PickState) (k : ℕ) :
    KeepsCatalog photos
      ⟨some i, photos.set i { photos.getD i defaultPhoto with isOnThisDay := true }, st, k⟩ := by
  refine ⟨List.length_set .., ?_⟩
  intro j
  by_cases hij : i = j
  · subst hij
    by_cases hi : i < photos.length
    · have hset : (photos.set i { photos.getD i defaultPhoto with isOnThisDay := true }).getD
          i defaultPhoto = { photos.getD i defaultPhoto with isOnThisDay := true } := by
        rw [List.getD_eq_getElem?_getD, List.getElem?_set_self (by omega)]
        rfl
      rw [hset]
      exact ⟨rfl, rfl, Or.inr ⟨rfl, rfl⟩⟩
    · have hset : photos.set i { photos.getD i defaultPhoto with isOnThisDay := true } =
          photos := by
        apply List.set_eq_of_length_le
        omega
      rw [hset]
      exact ⟨rfl, rfl, Or.inl rfl⟩
  · have hset : (photos.set i { photos.getD i defaultPhoto with isOnThisDay := true }).getD
        j defaultPhoto = photos.getD j defaultPhoto := by
      rw [List.getD_eq_getElem?_getD, List.getElem?_set_ne hij, ← List.getD_eq_getElem?_getD]
    rw [hset]
    exact ⟨rfl, rfl, Or.inl rfl⟩

/-- **C9 amended.** `pickPhoto` never mutates the catalog's records except for
the anniversary tag: after every call the catalog has the same records with the
same `url` and `timestamp` fields, and only the record returned by an
anniversary pick may have changed, by having its `isOnThisDay` flag set to
`true`.  (The original claim — no field ever changes — is refuted by the
counterexample below.) -/
theorem C9_catalog_mutation (cfg : Config) (clock : Clock) (rand : ℕ → ℚ) (fuel : ℕ)
    (photos : List Photo) (st : PickState) (k : ℕ) :
    KeepsCatalog photos (pickPhotoF cfg clock rand fuel photos st k) := by
  induction fuel generalizing st k with
  | zero => exact keeps_of_id _ _ _ _
  | succ fuel ih =>
    simp only [pickPhotoF]
    split
    · exact keeps_of_id _ _ _ _
    · split
      · split
        · split
          · exact keeps_of_set _ _ _ _
          · exact keeps_of_id _ _ _ _
        · exact afterOtd_keeps _ _ _ _ _ _ _ (ih _ _)
      · exact afterOtd_keeps _ _ _ _ _ _ _ (ih _ _)

/-- **C9 counterexample.**  The claim that `pickPhoto` never mutates the
supplied catalog's records is false: an anniversary pick sets `isOnThisDay` on
the shared record (`selectedPhoto.isOnThisDay = true` in the source).  Concrete
run: one photo dated June 10, 2024, today June 10, 2026, anniversary mode on,
random stream constantly 0 (gate fires, index 0 selected): afterwards the
catalog's record has `isOnThisDay = true` while it was `false` before. -/
theorem C9_counterexample :
    (Photo.mk "u1" (some ⟨0, 2024, 5, 10⟩) false).isOnThisDay = false ∧
    ((pickPhotoF ⟨[⟨none, 100⟩], 20, true, 3⟩ ⟨86400000 * 40, 5, 10, 2026⟩ (fun _ => 0) 2
        [⟨"u1", some ⟨0, 2024, 5, 10⟩, false⟩] ⟨[], ⟨[], -1⟩⟩ 0).catalog.getD 0
          defaultPhoto).isOnThisDay = true ∧
    (pickPhotoF ⟨[⟨none, 100⟩], 20, true, 3⟩ ⟨86400000 * 40, 5, 10, 2026⟩ (fun _ => 0) 2
        [⟨"u1", some ⟨0, 2024, 5, 10⟩, false⟩] ⟨[], ⟨[], -1⟩⟩ 0).catalog ≠
      [⟨"u1", some ⟨0, 2024, 5, 10⟩, false⟩] := by
  have hrun : (pickPhotoF ⟨[⟨none, 100⟩], 20, true, 3⟩ ⟨86400000 * 40, 5, 10, 2026⟩
      (fun _ => 0) 2 [⟨"u1", some ⟨0, 2024, 5, 10⟩, false⟩] ⟨[], ⟨[], -1⟩⟩ 0).catalog =
      [⟨"u1", some ⟨0, 2024, 5, 10⟩, true⟩] := by
    norm_num [pickPhotoF, filterRecentlyShown, isOnThisDayPhoto, doy2000, monthOffset2000,
      selectRandom, List.filter]
  refine ⟨rfl, ?_, ?_⟩
  · rw [hrun]; rfl
  · rw [hrun]; simp

/-- Folding `+ g x` starting from `a` is `a` plus the mapped sum. -/
lemma foldl_add_init {M : Type} [AddCommMonoid M] (g : α → M) :
    ∀ (l : List α) (a : M), l.foldl (fun s x => s + g x) a = a + (l.map g).sum := by
  intro l
  induction l with
  | nil => intro a; simp
  | cons x xs ih => intro a; simp [ih, add_assoc]

/-- `selectRandom` on a nonempty list with a draw in `[0,1)` picks an element. -/
lemma selectRandom_some (r : ℚ) (l : List α) (h0 : 0 ≤ r) (h1 : r < 1) (hl : l ≠ []) :
    ∃ x ∈ l, selectRandom r l = some x := by
  have hlen : 0 < l.length := List.length_pos.mpr hl
  have hlenQ : (0 : ℚ) < (l.length : ℚ) := by exact_mod_cast hlen
  have hm := mul_lt_mul_of_pos_right h1 hlenQ
  rw [one_mul] at hm
  have hfl : ⌊r * (l.length : ℚ)⌋ < (l.length : ℤ) := by
    rw [Int.floor_lt]
    push_cast
    linarith
  have hf0 : 0 ≤ ⌊r * (l.length : ℚ)⌋ := by
    apply Int.floor_nonneg.mpr
    positivity
  have hidx : (⌊r * (l.length : ℚ)⌋).toNat < l.length := by omega
  refine ⟨l.get ⟨_, hidx⟩, List.get_mem _ _ hidx, ?_⟩
  rw [selectRandom, if_neg (by omega)]
  exact List.get?_eq_get hidx

/-- The cumulative scan selects the bucket whose cumulative-weight interval
contains the roll. -/
lemma drawBucket_interval (roll : ℚ) :
    ∀ (l : List (Bucket × List ℕ)) (cum : ℚ), cum ≤ roll →
    roll < cum + (l.map (fun bc => bc.1.weight)).sum →
    ∃ j, ∃ hj : j < l.length,
      drawBucket roll cum l = some (l.get ⟨j, hj⟩) ∧
      cum + ((l.take j).map (fun bc => bc.1.weight)).sum ≤ roll ∧
      roll < cum + ((l.take (j + 1)).map (fun bc => bc.1.weight)).sum := by
  intro l
  induction l with
  | nil =>
    intro cum hc hr
    simp only [List.map_nil, List.sum_nil, add_zero] at hr
    exact absurd hr (by linarith)
  | cons b rest ih =>
    intro cum hc hr
    rw [drawBucket]
    by_cases hb : roll < cum + b.1.weight
    · rw [if_pos hb]
      refine ⟨0, by simp, rfl, by simpa using hc, ?_⟩
      simpa using hb
    · rw [if_neg hb]
      have hr' : roll < (cum + b.1.weight) + (rest.map (fun bc => bc.1.weight)).sum := by
        rw [List.map_cons, List.sum_cons] at hr
        linarith
      obtain ⟨j, hj, hdraw, hlo, hhi⟩ := ih (cum + b.1.weight) (by linarith) hr'
      refine ⟨j + 1, by simpa using Nat.succ_lt_succ hj, ?_, ?_, ?_⟩
      · simpa using hdraw
      · simp only [List.take_succ_cons, List.map_cons, List.sum_cons]
        linarith
      · simp only [List.take_succ_cons, List.map_cons, List.sum_cons]
        linarith

/-- Every index stored in the availability buckets is a valid catalog index. -/
lemma avB_indices_lt (cfg : Config) (clock : Clock) (photos : List Photo)
    (recent : List String) :
    ∀ bc ∈ availableBuckets cfg clock photos recent, ∀ i ∈ bc.2, i < photos.length := by
  intro bc hbc i hi
  rw [availableBuckets] at hbc
  obtain ⟨bc0, hbc0, rfl⟩ := List.mem_map.mp hbc
  rw [filterRecentlyShown] at hi
  have hi2 := List.mem_of_mem_filter hi
  rw [categorizePhotos] at hbc0
  obtain ⟨j, _, rfl⟩ := List.mem_map.mp hbc0
  have := List.mem_of_mem_filter hi2
  exact List.mem_range.mp this

/-- Every availability bucket carries one of the configured buckets. -/
lemma avB_bucket_mem (cfg : Config) (clock : Clock) (photos : List Photo)
    (recent : List String) :
    ∀ bc ∈ availableBuckets cfg clock photos recent, bc.1 ∈ cfg.timeBuckets := by
  intro bc hbc
  rw [availableBuckets] at hbc
  obtain ⟨bc0, hbc0, rfl⟩ := List.mem_map.mp hbc
  rw [categorizePhotos] at hbc0
  obtain ⟨j, hj, rfl⟩ := List.mem_map.mp hbc0
  have hjB : j < cfg.timeBuckets.length := List.mem_range.mp hj
  show cfg.timeBuckets.getD j defaultBucket ∈ cfg.timeBuckets
  rw [List.getD_eq_getElem _ _ hjB]
  exact List.getElem_mem _

/-- If some candidate survives somewhere, the weighted draw returns a catalog
index (under positive configured weights and a draw in `[0,1)`). -/
lemma weightedDraw_some (cfg : Config) (clock : Clock) (rand : ℕ → ℚ)
    (photos : List Photo) (recent : List String) (k : ℕ)
    (hw : ∀ b ∈ cfg.timeBuckets, 0 < b.weight)
    (hr : ∀ i, 0 ≤ rand i ∧ rand i < 1)
    (htot : totalAvailable cfg clock photos recent ≠ 0) :
    ∃ i < photos.length, weightedDraw cfg clock rand photos recent k = (some i, k + 2) := by
  have hex : ∃ bc ∈ availableBuckets cfg clock photos recent, bc.2 ≠ [] := by
    by_contra hall
    push_neg at hall
    apply htot
    rw [totalAvailable, foldl_add_init, zero_add]
    apply List.sum_eq_zero
    intro x hx
    obtain ⟨bc, hbc, rfl⟩ := List.mem_map.mp hx
    rw [hall bc hbc]
    rfl
  obtain ⟨bc0, hbc0, hbc0ne⟩ := hex
  have hmemNE : bc0 ∈ (availableBuckets cfg clock photos recent).filter
      (fun bc => decide (0 < bc.2.length)) := by
    rw [List.mem_filter]
    exact ⟨hbc0, by simp [List.length_pos.mpr hbc0ne]⟩
  have hNEne : (availableBuckets cfg clock photos recent).filter
      (fun bc => decide (0 < bc.2.length)) ≠ [] := List.ne_nil_of_mem hmemNE
  have hWpos : 0 < (((availableBuckets cfg clock photos recent).filter
      (fun bc => decide (0 < bc.2.length))).map (fun bc => bc.1.weight)).sum := by
    apply List.sum_pos
    · intro w hwm
      obtain ⟨bc, hbc, rfl⟩ := List.mem_map.mp hwm
      exact hw bc.1 (avB_bucket_mem cfg clock photos recent bc (List.mem_of_mem_filter hbc))
    · simp only [ne_eq, List.map_eq_nil_iff]
      exact hNEne
  rw [weightedDraw]
  rw [foldl_add_init, zero_add]
  have hroll0 : 0 ≤ rand k * (((availableBuckets cfg clock photos recent).filter
      (fun bc => decide (0 < bc.2.length))).map (fun bc => bc.1.weight)).sum :=
    mul_nonneg (hr k).1 (le_of_lt hWpos)
  have hroll1 : rand k * (((availableBuckets cfg clock photos recent).filter
      (fun bc => decide (0 < bc.2.length))).map (fun bc => bc.1.weight)).sum <
      0 + (((availableBuckets cfg clock photos recent).filter
        (fun bc => decide (0 < bc.2.length))).map (fun bc => bc.1.weight)).sum := by
    rw [zero_add]
    nlinarith [(hr k).1, (hr k).2]
  obtain ⟨j, hj, hdraw, _, _⟩ := drawBucket_interval _ _ 0 hroll0 hroll1
  have hgetmem := List.get_mem ((availableBuckets cfg clock photos recent).filter
    (fun bc => decide (0 < bc.2.length))) j hj
  have hpool : (((availableBuckets cfg clock photos recent).filter
      (fun bc => decide (0 < bc.2.length))).get ⟨j, hj⟩).2 ≠ [] := by
    have := (List.mem_filter.mp hgetmem).2
    simp only [decide_eq_true_eq] at this
    exact List.ne_nil_of_length_pos this
  obtain ⟨x, hxmem, hxsel⟩ := selectRandom_some (rand (k + 1)) _ (hr (k + 1)).1
    (hr (k + 1)).2 hpool
  refine ⟨x, avB_indices_lt cfg clock photos recent _ (List.mem_of_mem_filter hgetmem) x hxmem, ?_⟩
  simp only [hdraw, hxsel]

/-- Pointwise sum of two mapped lists. -/
lemma sum_map_add (l : List α) (f g : α → ℕ) :
    (l.map (fun x => f x + g x)).sum = (l.map f).sum + (l.map g).sum := by
  induction l with
  | nil => rfl
  | cons x xs ih => simp [ih]; omega

/-- A single indicator inside a range sums to one. -/
lemma sum_indicator (B v : ℕ) (hv : v < B) :
    ((List.range B).map (fun j => if v = j then 1 else 0)).sum = 1 := by
  induction B with
  | zero => omega
  | succ n ih =>
    rw [List.range_succ, List.map_append, List.sum_append]
    rcases Nat.lt_or_ge v n with h | h
    · rw [ih h]
      simp only [List.map_cons, List.map_nil, List.sum_cons, List.sum_nil]
      rw [if_neg (by omega)]
      omega
    · have hv' : v = n := by omega
      subst hv'
      have hz : ((List.range v).map (fun j => if v = j then 1 else 0)).sum = 0 := by
        apply List.sum_eq_zero
        intro x hx
        obtain ⟨j, hj, rfl⟩ := List.mem_map.mp hx
        rw [if_neg (by have := List.mem_range.mp hj; omega)]
      rw [hz]
      simp

/-- Partition counting: filtering `range N` by each value of a function with
range below `B` and summing the filter lengths gives back `N`. -/
lemma sum_counts (B : ℕ) (f : ℕ → ℕ) :
    ∀ N : ℕ, (∀ i < N, f i < B) →
    ((List.range B).map
      (fun j => ((List.range N).filter (fun i => decide (f i = j))).length)).sum = N := by
  intro N
  induction N with
  | zero => intro _; simp
  | succ n ih =>
    intro hf
    have hsplit : ∀ j : ℕ, ((List.range (n + 1)).filter (fun i => decide (f i = j))).length =
        ((List.range n).filter (fun i => decide (f i = j))).length +
          (if f n = j then 1 else 0) := by
      intro j
      rw [List.range_succ, List.filter_append, List.length_append]
      congr 1
      by_cases hfn : f n = j
      · simp [hfn]
      · simp [hfn]
    simp only [hsplit]
    rw [sum_map_add, ih (fun i hi => hf i (by omega)), sum_indicator B (f n) (hf n (by omega))]

/-- Every photo lands in a bucket index below the bucket count. -/
lemma bucketIndexOf_lt (buckets : List Bucket) (clock : Clock) (photo : Photo)
    (hbk : buckets ≠ []) : bucketIndexOf buckets clock photo < buckets.length := by
  have hB : 0 < buckets.length := List.length_pos.mpr hbk
  have haux : ∀ (l : List Bucket) (p : Bucket → Bool) (s i : ℕ),
      findIdxAux p l s = some i → i < s + l.length := by
    intro l p
    induction l with
    | nil => intro s i h; cases h
    | cons b rest ih =>
      intro s i h
      rw [findIdxAux] at h
      by_cases hp : p b = true
      · rw [if_pos hp] at h
        simp only [Option.some.injEq] at h
        subst h
        simp only [List.length_cons]
        omega
      · rw [if_neg hp] at h
        have := ih (s + 1) i h
        simp only [List.length_cons]
        omega
  rcases hts : photo.timestamp with _ | t
  · simp only [bucketIndexOf, hts]
    omega
  · simp only [bucketIndexOf, hts]
    rcases hfi : findIdxAux (fun b => ageLeMax (ageDays clock t) b.maxDays) buckets 0 with _ | i
    · simp only [hfi]
      omega
    · simp only [hfi]
      have := haux buckets _ 0 i hfi
      omega

/-- Excluding nothing leaves every candidate pool intact. -/
lemma filterRecentlyShown_nil (photos : List Photo) (idxs : List ℕ) :
    filterRecentlyShown [] photos idxs = idxs := by
  rw [filterRecentlyShown]
  apply List.filter_eq_self.mpr
  intro i _
  rfl

/-- With an empty Recent-Shown History, every catalog photo is a candidate:
`totalAvailable` is the catalog size (given at least one configured bucket). -/
lemma totalAvailable_nil_recent (cfg : Config) (clock : Clock) (photos : List Photo)
    (hbk : cfg.timeBuckets ≠ []) :
    totalAvailable cfg clock photos [] = photos.length := by
  rw [totalAvailable, foldl_add_init, zero_add]
  have havb : availableBuckets cfg clock photos [] =
      categorizePhotos cfg.timeBuckets clock photos := by
    rw [availableBuckets]
    have : ∀ bc ∈ categorizePhotos cfg.timeBuckets clock photos,
        (bc.1, filterRecentlyShown [] photos bc.2) = bc := by
      intro bc _
      rw [filterRecentlyShown_nil]
    rw [List.map_congr_left this, List.map_id']
  rw [havb, categorizePhotos, List.map_map]
  have hcomp : ((fun bc : Bucket × List ℕ => bc.2.length) ∘
      (fun j => (cfg.timeBuckets.getD j defaultBucket,
        (List.range photos.length).filter
          (fun i => decide (bucketIndexOf cfg.timeBuckets clock
            (photos.getD i defaultPhoto) = j))))) =
      (fun j => ((List.range photos.length).filter
        (fun i => decide (bucketIndexOf cfg.timeBuckets clock
          (photos.getD i defaultPhoto) = j))).length) := rfl
  rw [hcomp]
  exact sum_counts cfg.timeBuckets.length
    (fun i => bucketIndexOf cfg.timeBuckets clock (photos.getD i defaultPhoto))
    photos.length
    (fun i _ => bucketIndexOf_lt cfg.timeBuckets clock _ hbk)

/-- One-step unfolding of `pickPhotoF` at positive fuel. -/
lemma pickPhotoF_succ (cfg : Config) (clock : Clock) (rand : ℕ → ℚ) (fuel : ℕ)
    (photos : List Photo) (st : PickState) (k : ℕ) :
    pickPhotoF cfg clock rand (fuel + 1) photos st k =
      (if photos.length = 0 then ⟨none, photos, st, k⟩
       else
         if cfg.onThisDayEnabled ∧ 0 < (filterRecentlyShown st.recent photos
             ((List.range photos.length).filter
               (fun i => isOnThisDayPhoto clock cfg.onThisDayWindowDays
                 (photos.getD i defaultPhoto)))).length then
           if rand k < 1 / 2 then
             match selectRandom (rand (k + 1)) (filterRecentlyShown st.recent photos
                 ((List.range photos.length).filter
                   (fun i => isOnThisDayPhoto clock cfg.onThisDayWindowDays
                     (photos.getD i defaultPhoto)))) with
             | some i =>
               ⟨some i, photos.set i { photos.getD i defaultPhoto with isOnThisDay := true },
                 { recent := addToHistory ((photos.set i
                       { photos.getD i defaultPhoto with isOnThisDay := true }).getD i
                         defaultPhoto).url st.recent cfg.historySize,
                   nav := addToNavigationHistory ((photos.set i
                       { photos.getD i defaultPhoto with isOnThisDay := true }).getD i
                         defaultPhoto) st.nav cfg.historySize }, k + 2⟩
             | none => ⟨none, photos, st, k + 2⟩
           else
             afterOtdStage cfg clock rand photos st (k + 1)
               (pickPhotoF cfg clock rand fuel photos { st with recent := [] } (k + 1))
         else
           afterOtdStage cfg clock rand photos st k
             (pickPhotoF cfg clock rand fuel photos { st with recent := [] } k)) := rfl

/-- When candidates remain, the post-anniversary stage ignores the retry
result. -/
lemma afterOtd_indep (cfg : Config) (clock : Clock) (rand : ℕ → ℚ) (photos : List Photo)
    (st : PickState) (k : ℕ) (rr rr' : PickResult)
    (htot : totalAvailable cfg clock photos st.recent ≠ 0) :
    afterOtdStage cfg clock rand photos st k rr =
      afterOtdStage cfg clock rand photos st k rr' := by
  rw [afterOtdStage, afterOtdStage, if_neg htot, if_neg htot]

/-- When candidates remain, a single level of `pickPhoto` does not depend on
the fuel. -/
lemma pick_one_indep (cfg : Config) (clock : Clock) (rand : ℕ → ℚ) (photos : List Photo)
    (st : PickState) (k : ℕ)
    (htot : totalAvailable cfg clock photos st.recent ≠ 0) (fuel fuel' : ℕ) :
    pickPhotoF cfg clock rand (fuel + 1) photos st k =
      pickPhotoF cfg clock rand (fuel' + 1) photos st k := by
  rw [pickPhotoF_succ, pickPhotoF_succ]
  by_cases h0 : photos.length = 0
  · rw [if_pos h0, if_pos h0]
  · rw [if_neg h0, if_neg h0]
    by_cases hB : cfg.onThisDayEnabled ∧ 0 < (filterRecentlyShown st.recent photos
        ((List.range photos.length).filter
          (fun i => isOnThisDayPhoto clock cfg.onThisDayWindowDays
            (photos.getD i defaultPhoto)))).length
    · rw [if_pos hB, if_pos hB]
      by_cases hg : rand k < 1 / 2
      · rw [if_pos hg, if_pos hg]
      · rw [if_neg hg, if_neg hg]
        exact afterOtd_indep cfg clock rand photos st (k + 1) _ _ htot
    · rw [if_neg hB, if_neg hB]
      exact afterOtd_indep cfg clock rand photos st k _ _ htot

/-- With fuel at least 2, `pickPhoto` does not depend on the fuel: the
clear-and-retry recursion can only fire once. -/
lemma pick_fuel_indep (cfg : Config) (clock : Clock) (rand : ℕ → ℚ) (photos : List Photo)
    (st : PickState) (k : ℕ) (hlen : photos.length ≠ 0) (hbk : cfg.timeBuckets ≠ [])
    (fuel fuel' : ℕ) :
    pickPhotoF cfg clock rand (fuel + 2) photos st k =
      pickPhotoF cfg clock rand (fuel' + 2) photos st k := by
  have htot0 : totalAvailable cfg clock photos
      (({ st with recent := [] } : PickState)).recent ≠ 0 := by
    show totalAvailable cfg clock photos [] ≠ 0
    rw [totalAvailable_nil_recent cfg clock photos hbk]
    exact hlen
  have hrr : ∀ k2, pickPhotoF cfg clock rand (fuel + 1) photos { st with recent := [] } k2 =
      pickPhotoF cfg clock rand (fuel' + 1) photos { st with recent := [] } k2 :=
    fun k2 => pick_one_indep cfg clock rand photos _ k2 htot0 fuel fuel'
  rw [show fuel + 2 = fuel + 1 + 1 from rfl, show fuel' + 2 = fuel' + 1 + 1 from rfl]
  conv_rhs => rw [pickPhotoF_succ]
  conv_lhs => rw [pickPhotoF_succ]
  rw [hrr, hrr]

/-- Candidate anniversary indices are valid catalog indices. -/
lemma otdAvail_lt (recent : List String) (photos : List Photo) (q : ℕ → Bool) :
    ∀ x ∈ filterRecentlyShown recent photos ((List.range photos.length).filter q),
      x < photos.length := by
  intro x hx
  rw [filterRecentlyShown] at hx
  exact List.mem_range.mp (List.mem_of_mem_filter (List.mem_of_mem_filter hx))

/-- The post-anniversary stage yields a valid pick when its retry branch does
or is not needed. -/
lemma afterOtd_some (cfg : Config) (clock : Clock) (rand : ℕ → ℚ) (photos : List Photo)
    (st : PickState) (k : ℕ) (rr : PickResult)
    (hw : ∀ b ∈ cfg.timeBuckets, 0 < b.weight)
    (hr : ∀ i, 0 ≤ rand i ∧ rand i < 1)
    (hretry : totalAvailable cfg clock photos st.recent = 0 →
      ∃ i < photos.length, rr.photo = some i) :
    ∃ i < photos.length, (afterOtdStage cfg clock rand photos st k rr).photo = some i := by
  rw [afterOtdStage]
  by_cases htot : totalAvailable cfg clock photos st.recent = 0
  · rw [if_pos htot]
    exact hretry htot
  · rw [if_neg htot]
    obtain ⟨i, hi, hwd⟩ := weightedDraw_some cfg clock rand photos st.recent k hw hr htot
    refine ⟨i, hi, ?_⟩
    simp only [hwd]

/-- One level of `pickPhoto` returns a photo whenever candidates remain before
any history clearing. -/
lemma pick_some_of_total_one (cfg : Config) (clock : Clock) (rand : ℕ → ℚ)
    (photos : List Photo) (st : PickState) (k : ℕ) (fuel : ℕ)
    (hw : ∀ b ∈ cfg.timeBuckets, 0 < b.weight)
    (hr : ∀ i, 0 ≤ rand i ∧ rand i < 1)
    (hlen : photos.length ≠ 0)
    (htot : totalAvailable cfg clock photos st.recent ≠ 0) :
    ∃ i < photos.length, (pickPhotoF cfg clock rand (fuel + 1) photos st k).photo = some i := by
  rw [pickPhotoF_succ, if_neg hlen]
  by_cases hB : cfg.onThisDayEnabled ∧ 0 < (filterRecentlyShown st.recent photos
      ((List.range photos.length).filter
        (fun i => isOnThisDayPhoto clock cfg.onThisDayWindowDays
          (photos.getD i defaultPhoto)))).length
  · rw [if_pos hB]
    by_cases hg : rand k < 1 / 2
    · rw [if_pos hg]
      obtain ⟨x, hxmem, hxsel⟩ := selectRandom_some (rand (k + 1)) _ (hr (k + 1)).1
        (hr (k + 1)).2 (List.ne_nil_of_length_pos hB.2)
      refine ⟨x, otdAvail_lt st.recent photos _ x hxmem, ?_⟩
      simp only [hxsel]
    · rw [if_neg hg]
      exact afterOtd_some cfg clock rand photos st (k + 1) _ hw hr
        (fun h => absurd h htot)
  · rw [if_neg hB]
    exact afterOtd_some cfg clock rand photos st k _ hw hr (fun h => absurd h htot)

/-- **C2 amended.** For every non-empty catalog and validated configuration in
which every bucket weight is positive (the source allows a configured weight of
0, which the counterexample below exploits), `pickPhoto` with fuel 2 returns a
photo; the result is independent of any extra fuel, so the clear-and-retry
recursion fires at most once; and the Empty result occurs for an empty catalog
at every fuel. -/
theorem C2_pick_total (cfg : Config) (clock : Clock) (rand : ℕ → ℚ) (photos : List Photo)
    (st : PickState) (k : ℕ)
    (hne : photos ≠ []) (hbk : cfg.timeBuckets ≠ [])
    (hw : ∀ b ∈ cfg.timeBuckets, 0 < b.weight)
    (hr : ∀ i, 0 ≤ rand i ∧ rand i < 1) :
    (∀ fuel, ∃ i < photos.length,
      (pickPhotoF cfg clock rand (fuel + 2) photos st k).photo = some i) ∧
    (∀ fuel fuel', pickPhotoF cfg clock rand (fuel + 2) photos st k =
      pickPhotoF cfg clock rand (fuel' + 2) photos st k) ∧
    (∀ fuel st2 k2, (pickPhotoF cfg clock rand fuel [] st2 k2).photo = none) := by
  have hlen : photos.length ≠ 0 := fun h => hne (List.length_eq_zero.mp h)
  refine ⟨?_, fun fuel fuel' => pick_fuel_indep cfg clock rand photos st k hlen hbk fuel fuel',
    ?_⟩
  · intro fuel
    rw [show fuel + 2 = fuel + 1 + 1 from rfl, pickPhotoF_succ, if_neg hlen]
    by_cases hB : cfg.onThisDayEnabled ∧ 0 < (filterRecentlyShown st.recent photos
        ((List.range photos.length).filter
          (fun i => isOnThisDayPhoto clock cfg.onThisDayWindowDays
            (photos.getD i defaultPhoto)))).length
    · rw [if_pos hB]
      by_cases hg : rand k < 1 / 2
      · rw [if_pos hg]
        obtain ⟨x, hxmem, hxsel⟩ := selectRandom_some (rand (k + 1)) _ (hr (k + 1)).1
          (hr (k + 1)).2 (List.ne_nil_of_length_pos hB.2)
        refine ⟨x, otdAvail_lt st.recent photos _ x hxmem, ?_⟩
        simp only [hxsel]
      · rw [if_neg hg]
        apply afterOtd_some cfg clock rand photos st (k + 1) _ hw hr
        intro _
        apply pick_some_of_total_one cfg clock rand photos _ (k + 1) fuel hw hr hlen
        show totalAvailable cfg clock photos [] ≠ 0
        rw [totalAvailable_nil_recent cfg clock photos hbk]
        exact hlen
    · rw [if_neg hB]
      apply afterOtd_some cfg clock rand photos st k _ hw hr
      intro _
      apply pick_some_of_total_one cfg clock rand photos _ k fuel hw hr hlen
      show totalAvailable cfg clock photos [] ≠ 0
      rw [totalAvailable_nil_recent cfg clock photos hbk]
      exact hlen
  · intro fuel st2 k2
    cases fuel with
    | zero => rfl
    | succ fuel => rfl

/-- **C2 counterexample.** A non-empty catalog on which `pickPhoto` returns the
Empty result at every fuel: the only photo is older than 30 days, so it lands in
the catch-all bucket, whose configured weight is 0 — a configuration
`validateConfig` accepts, since the weights sum to 100.  The cumulative-weight
scan then never fires (`roll < cumulative` is `0 < 0`), no photo is selected,
and `pickPhoto` returns null, refuting "for every non-empty catalog pickPhoto
returns a photo". -/
theorem C2_counterexample :
    ∃ (cfg : Config) (clock : Clock) (photos : List Photo),
      photos ≠ [] ∧ (cfg.timeBuckets.map Bucket.weight).sum = 100 ∧
      ∀ fuel, (pickPhotoF cfg clock (fun _ => 0) (fuel + 1) photos
        ⟨[], ⟨[], -1⟩⟩ 0).photo = none := by
  refine ⟨⟨[⟨some 30, 100⟩, ⟨none, 0⟩], 20, false, 3⟩, ⟨86400000 * 40, 5, 10, 2026⟩,
    [⟨"u1", some ⟨0, 2024, 5, 10⟩, false⟩], by simp, by norm_num, ?_⟩
  intro fuel
  have htot : totalAvailable ⟨[⟨some 30, 100⟩, ⟨none, 0⟩], 20, false, 3⟩
      ⟨86400000 * 40, 5, 10, 2026⟩ [⟨"u1", some ⟨0, 2024, 5, 10⟩, false⟩] [] ≠ 0 := by
    norm_num [totalAvailable, availableBuckets, categorizePhotos, filterRecentlyShown,
      bucketIndexOf, findIdxAux, ageLeMax, ageDays, List.range_succ]
  rw [pick_one_indep ⟨[⟨some 30, 100⟩, ⟨none, 0⟩], 20, false, 3⟩
    ⟨86400000 * 40, 5, 10, 2026⟩ (fun _ => 0) [⟨"u1", some ⟨0, 2024, 5, 10⟩, false⟩]
    ⟨[], ⟨[], -1⟩⟩ 0 htot fuel 0]
  norm_num [pickPhotoF, afterOtdStage, weightedDraw, totalAvailable, availableBuckets,
    categorizePhotos, filterRecentlyShown, bucketIndexOf, findIdxAux, ageLeMax, ageDays,
    List.range_succ, drawBucket]

/-- **C4 amended.** Under positive configured weights (which the source does
not enforce — see the counterexample), the weighted draw behaves as specified:
a bucket survives into `nonEmptyBuckets` exactly when it comes from
`availableBuckets` with a non-empty candidate pool, keeping its original
configured weight; the draw `roll = random * activeWeight` falls in the
cumulative-weight interval of the selected bucket; the selected bucket's pool
is non-empty and the pick is taken from it; and when a single bucket survives
it is always the one selected. -/
theorem C4_weighted_bucket_draw (cfg : Config) (clock : Clock) (rand : ℕ → ℚ)
    (photos : List Photo) (recent : List String) (k : ℕ)
    (hw : ∀ b ∈ cfg.timeBuckets, 0 < b.weight)
    (hr : ∀ i, 0 ≤ rand i ∧ rand i < 1)
    (htot : totalAvailable cfg clock photos recent ≠ 0) :
    (∀ bc, bc ∈ nonEmptyBuckets cfg clock photos recent ↔
      bc ∈ availableBuckets cfg clock photos recent ∧ bc.2 ≠ []) ∧
    ∃ j, ∃ hj : j < (nonEmptyBuckets cfg clock photos recent).length,
      drawBucket (rand k * ((nonEmptyBuckets cfg clock photos recent).map
          (fun bc => bc.1.weight)).sum) 0 (nonEmptyBuckets cfg clock photos recent) =
        some ((nonEmptyBuckets cfg clock photos recent).get ⟨j, hj⟩) ∧
      (((nonEmptyBuckets cfg clock photos recent).take j).map (fun bc => bc.1.weight)).sum ≤
        rand k * ((nonEmptyBuckets cfg clock photos recent).map (fun bc => bc.1.weight)).sum ∧
      rand k * ((nonEmptyBuckets cfg clock photos recent).map (fun bc => bc.1.weight)).sum <
        (((nonEmptyBuckets cfg clock photos recent).take (j + 1)).map
          (fun bc => bc.1.weight)).sum ∧
      ((nonEmptyBuckets cfg clock photos recent).get ⟨j, hj⟩).2 ≠ [] ∧
      (∃ x ∈ ((nonEmptyBuckets cfg clock photos recent).get ⟨j, hj⟩).2,
        weightedDraw cfg clock rand photos recent k = (some x, k + 2)) ∧
      ((nonEmptyBuckets cfg clock photos recent).length = 1 → j = 0) := by
  simp only [nonEmptyBuckets]
  have hex : ∃ bc ∈ availableBuckets cfg clock photos recent, bc.2 ≠ [] := by
    by_contra hall
    push_neg at hall
    apply htot
    rw [totalAvailable, foldl_add_init, zero_add]
    apply List.sum_eq_zero
    intro x hx
    obtain ⟨bc, hbc, rfl⟩ := List.mem_map.mp hx
    rw [hall bc hbc]
    rfl
  obtain ⟨bc0, hbc0, hbc0ne⟩ := hex
  have hmemNE : bc0 ∈ (availableBuckets cfg clock photos recent).filter
      (fun bc => decide (0 < bc.2.length)) := by
    rw [List.mem_filter]
    exact ⟨hbc0, by simp [List.length_pos.mpr hbc0ne]⟩
  have hNEne : (availableBuckets cfg clock photos recent).filter
      (fun bc => decide (0 < bc.2.length)) ≠ [] := List.ne_nil_of_mem hmemNE
  have hWpos : 0 < (((availableBuckets cfg clock photos recent).filter
      (fun bc => decide (0 < bc.2.length))).map (fun bc => bc.1.weight)).sum := by
    apply List.sum_pos
    · intro w hwm
      obtain ⟨bc, hbc, rfl⟩ := List.mem_map.mp hwm
      exact hw bc.1 (avB_bucket_mem cfg clock photos recent bc (List.mem_of_mem_filter hbc))
    · simp only [ne_eq, List.map_eq_nil_iff]
      exact hNEne
  have hroll0 : 0 ≤ rand k * (((availableBuckets cfg clock photos recent).filter
      (fun bc => decide (0 < bc.2.length))).map (fun bc => bc.1.weight)).sum :=
    mul_nonneg (hr k).1 (le_of_lt hWpos)
  have hroll1 : rand k * (((availableBuckets cfg clock photos recent).filter
      (fun bc => decide (0 < bc.2.length))).map (fun bc => bc.1.weight)).sum <
      0 + (((availableBuckets cfg clock photos recent).filter
        (fun bc => decide (0 < bc.2.length))).map (fun bc => bc.1.weight)).sum := by
    rw [zero_add]
    nlinarith [(hr k).1, (hr k).2]
  obtain ⟨j, hj, hdraw, hlo, hhi⟩ := drawBucket_interval _ _ 0 hroll0 hroll1
  rw [zero_add] at hlo hhi
  have hgetmem := List.get_mem ((availableBuckets cfg clock photos recent).filter
    (fun bc => decide (0 < bc.2.length))) j hj
  have hpool : (((availableBuckets cfg clock photos recent).filter
      (fun bc => decide (0 < bc.2.length))).get ⟨j, hj⟩).2 ≠ [] := by
    have := (List.mem_filter.mp hgetmem).2
    simp only [decide_eq_true_eq] at this
    exact List.ne_nil_of_length_pos this
  obtain ⟨x, hxmem, hxsel⟩ := selectRandom_some (rand (k + 1)) _ (hr (k + 1)).1
    (hr (k + 1)).2 hpool
  refine ⟨?_, j, hj, hdraw, hlo, hhi, hpool, ⟨x, hxmem, ?_⟩, fun h1 => by omega⟩
  · intro bc
    rw [List.mem_filter]
    constructor
    · intro ⟨hm, hlen⟩
      simp only [decide_eq_true_eq] at hlen
      exact ⟨hm, List.ne_nil_of_length_pos hlen⟩
    · intro ⟨hm, hne⟩
      exact ⟨hm, by simp [List.length_pos.mpr hne]⟩
  · rw [weightedDraw]
    rw [foldl_add_init, zero_add]
    simp only [hdraw, hxsel]

/-- **C4 counterexample.** A single non-empty bucket that the draw never
selects: the sole surviving bucket carries configured weight 0 (allowed by
`validateConfig` since the weights still sum to 100), so `roll < cumulative` is
`0 < 0` and the scan falls through, refuting "with a single non-empty bucket
every draw selects it". -/
theorem C4_counterexample :
    ∃ (cfg : Config) (clock : Clock) (photos : List Photo) (b : Bucket) (pool : List ℕ),
      nonEmptyBuckets cfg clock photos [] = [(b, pool)] ∧ pool ≠ [] ∧
      weightedDraw cfg clock (fun _ => 0) photos [] 0 = (none, 1) := by
  refine ⟨⟨[⟨some 30, 100⟩, ⟨none, 0⟩], 20, false, 3⟩, ⟨86400000 * 40, 5, 10, 2026⟩,
    [⟨"u1", some ⟨0, 2024, 5, 10⟩, false⟩], ⟨none, 0⟩, [0], ?_, by simp, ?_⟩
  · norm_num [nonEmptyBuckets, availableBuckets, categorizePhotos, filterRecentlyShown,
      bucketIndexOf, findIdxAux, ageLeMax, ageDays, List.range_succ]
  · norm_num [weightedDraw, availableBuckets, categorizePhotos, filterRecentlyShown,
      bucketIndexOf, findIdxAux, ageLeMax, ageDays, List.range_succ, drawBucket]

/-! Concrete instantiations of the theorems above, discharging their
hypotheses on sample inputs. -/

/-- `C5_nearest_minimal_first_tie` instantiated at the in-range colour
`(10, 200, 30)`. -/
theorem C5_witness : (10 : ℕ) ≤ 255 ∧ (200 : ℕ) ≤ 255 ∧ (30 : ℕ) ≤ 255 ∧
    findClosestColorIndex 10 200 30 < ACEP_PALETTE.length :=
  ⟨by decide, by decide, by decide,
    (C5_nearest_minimal_first_tie 10 200 30 (by decide) (by decide) (by decide)).1⟩

/-- `C3_error_diffusion_step` instantiated on a 2×2 image at the east
neighbour of the processed pixel, which receives 7/16 of the error. -/
theorem C3_witness : (0 : ℕ) < 2 ∧ (1 : ℕ) < 2 ∧ (0 : ℕ) < 3 ∧
    ditherPixel 2 2 3 0 0 (fun i => (i : ℚ)) ((0 * 2 + 1) * 3 + 0) =
      (fun i => (i : ℚ)) ((0 * 2 + 1) * 3 + 0) +
        errAt (fun i => (i : ℚ)) ((0 * 2 + 0) * 3) 0 * 7 / 16 := by
  refine ⟨by decide, by decide, by decide, ?_⟩
  rw [C3_error_diffusion_step 2 2 0 0 1 0 0 (fun i => (i : ℚ)) (by decide) (by decide)
    (by decide) (by decide) (by decide)]
  norm_num

/-- `C6_palette_closure` instantiated on a 1×1 image. -/
theorem C6_witness : ([(10 : ℕ), 20, 30] : List ℕ).length = 1 * 1 * 3 ∧
    ∀ p < 1 * 1,
      ((applyFloydSteinbergCore [10, 20, 30] 1 1 3).getD (p * 3) 0,
       (applyFloydSteinbergCore [10, 20, 30] 1 1 3).getD (p * 3 + 1) 0,
       (applyFloydSteinbergCore [10, 20, 30] 1 1 3).getD (p * 3 + 2) 0) ∈ ACEP_PALETTE :=
  ⟨by decide, (C6_palette_closure [10, 20, 30] 1 1 (by decide)).1⟩

/-- `C8_navigation_invariants` instantiated at the initial navigation state
with `history_size = 2`. -/
theorem C8_witness : ((-1 : ℤ) ≤ (⟨[], -1⟩ : NavState).idx ∧
      (⟨[], -1⟩ : NavState).idx ≤ (((⟨[], -1⟩ : NavState).hist.length : ℤ)) - 1) ∧
    (⟨[], -1⟩ : NavState).hist.length ≤ 2 * 2 ∧
    (-1 ≤ (addToNavigationHistory ⟨"w", none, false⟩ ⟨[], -1⟩ 2).idx ∧
      (addToNavigationHistory ⟨"w", none, false⟩ ⟨[], -1⟩ 2).idx =
        (((addToNavigationHistory ⟨"w", none, false⟩ ⟨[], -1⟩ 2).hist.length : ℤ)) - 1) :=
  ⟨by decide, by decide,
    (C8_navigation_invariants ⟨"w", none, false⟩ ⟨[], -1⟩ 2 (by decide) (by decide)).1⟩

/-- `C10_prev_next_roundtrip` instantiated at a two-entry history with the
cursor at the tail. -/
theorem C10_witness : ((-1 : ℤ) ≤ (⟨[⟨"a", none, false⟩, ⟨"b", none, false⟩], 1⟩ : NavState).idx ∧
      (⟨[⟨"a", none, false⟩, ⟨"b", none, false⟩], 1⟩ : NavState).idx ≤
        (((⟨[⟨"a", none, false⟩, ⟨"b", none, false⟩], 1⟩ : NavState).hist.length : ℤ)) - 1) ∧
    (0 < (⟨[⟨"a", none, false⟩, ⟨"b", none, false⟩], 1⟩ : NavState).idx →
      (getNextPhoto (getPreviousPhoto
          (⟨[⟨"a", none, false⟩, ⟨"b", none, false⟩], 1⟩ : NavState)).2).2 =
        (⟨[⟨"a", none, false⟩, ⟨"b", none, false⟩], 1⟩ : NavState) ∧
      (getNextPhoto (getPreviousPhoto
          (⟨[⟨"a", none, false⟩, ⟨"b", none, false⟩], 1⟩ : NavState)).2).1 =
        getCurrentPhoto (⟨[⟨"a", none, false⟩, ⟨"b", none, false⟩], 1⟩ : NavState)) :=
  ⟨by decide,
    (C10_prev_next_roundtrip ⟨[⟨"a", none, false⟩, ⟨"b", none, false⟩], 1⟩ (by decide)).1⟩

/-- `C2_pick_total` instantiated at a one-photo catalog, a single catch-all
bucket of weight 100 and the constant-zero random stream. -/
theorem C2_witness : ([⟨"u1", none, false⟩] : List Photo) ≠ [] ∧
    ([⟨none, (100 : ℚ)⟩] : List Bucket) ≠ [] ∧
    (∀ b ∈ ([⟨none, (100 : ℚ)⟩] : List Bucket), 0 < b.weight) ∧
    (∀ i : ℕ, 0 ≤ (fun _ => (0 : ℚ)) i ∧ (fun _ => (0 : ℚ)) i < 1) ∧
    ∃ i < ([⟨"u1", none, false⟩] : List Photo).length,
      (pickPhotoF ⟨[⟨none, 100⟩], 20, false, 3⟩ ⟨0, 1, 1, 2026⟩ (fun _ => 0) (0 + 2)
        [⟨"u1", none, false⟩] ⟨[], ⟨[], -1⟩⟩ 0).photo = some i := by
  refine ⟨by simp, by simp, ?_, ?_, ?_⟩
  · intro b hb
    rw [List.mem_singleton] at hb
    subst hb
    norm_num
  · intro i
    norm_num
  · exact (C2_pick_total ⟨[⟨none, 100⟩], 20, false, 3⟩ ⟨0, 1, 1, 2026⟩ (fun _ => 0)
      [⟨"u1", none, false⟩] ⟨[], ⟨[], -1⟩⟩ 0 (by simp) (by simp)
      (by intro b hb; rw [List.mem_singleton] at hb; subst hb; norm_num)
      (by intro i; norm_num)).1 0

/-- `C4_weighted_bucket_draw` instantiated at a one-photo catalog and a single
catch-all bucket of weight 100. -/
theorem C4_witness : totalAvailable ⟨[⟨none, 100⟩], 20, false, 3⟩ ⟨0, 1, 1, 2026⟩
      [⟨"u1", none, false⟩] [] ≠ 0 ∧
    (∀ bc, bc ∈ nonEmptyBuckets ⟨[⟨none, 100⟩], 20, false, 3⟩ ⟨0, 1, 1, 2026⟩
        [⟨"u1", none, false⟩] [] ↔
      bc ∈ availableBuckets ⟨[⟨none, 100⟩], 20, false, 3⟩ ⟨0, 1, 1, 2026⟩
        [⟨"u1", none, false⟩] [] ∧ bc.2 ≠ []) := by
  have htot : totalAvailable ⟨[⟨none, 100⟩], 20, false, 3⟩ ⟨0, 1, 1, 2026⟩
      [⟨"u1", none, false⟩] [] ≠ 0 := by
    norm_num [totalAvailable, availableBuckets, categorizePhotos, filterRecentlyShown,
      bucketIndexOf, List.range_succ]
  exact ⟨htot, (C4_weighted_bucket_draw ⟨[⟨none, 100⟩], 20, false, 3⟩ ⟨0, 1, 1, 2026⟩
    (fun _ => 0) [⟨"u1", none, false⟩] [] 0
    (by intro b hb; rw [List.mem_singleton] at hb; subst hb; norm_num)
    (by intro i; norm_num) htot).1⟩

end Inkframe
